import Mathlib

/-!
# Feed ingestion pipeline of `rumors` (`internal/task/handler_job_feed.go`)

A shallow embedding of `HandlerJobFeed`: the feed normalizer (`parseFeed`), the cursor
resolver (`findLastIndex`), the item enricher (`processItem`), the persister
(`saveArticle`) and the orchestrator (`ProcessTask`).

External collaborators (feed parser, HTTP client, Open Graph scraper, language detector,
HTML stripper, repositories, publisher, logger, clock, context) are the fields of `Env`;
every effect the handler has on them is recorded in the explicit `World` it threads through.
-/

namespace Rumors

/-! ## Data model -/

/-- Instants of `time.Time`, as a totally ordered count of nanoseconds. -/
abbrev Time := Int

/-- Values of `uuid.UUID`. -/
abbrev UUID := Nat

/-- Error values the handler distinguishes: `context.Canceled` / `context.DeadlineExceeded`
(one class for `errs.IsCanceledOrDeadline`), `repository.ErrDuplicateKey`,
`repository.ErrEntityNotFound`, the `*url.Error` of `url.ParseRequestURI`, anything else. -/
inductive Err where
  | canceledOrDeadline
  | duplicateKey
  | entityNotFound
  | invalidURI
  | other
  deriving DecidableEq, Repr

/-- Go `errs.IsCanceledOrDeadline`. -/
def IsCanceledOrDeadline : Err → Bool
  | .canceledOrDeadline => true
  | _ => false

/-- Go `gofeed.Person` (the handler reads only `Name`). -/
structure Person where
  Name : String
  deriving DecidableEq, Repr

/-- Go `gofeed.Item`, the fields the handler reads or writes. The two timestamps and the
authors are pointers in Go, hence optional here. -/
structure Item where
  Title : String
  Description : String
  Content : String
  Link : String
  Links : List String
  GUID : String
  PublishedParsed : Option Time
  UpdatedParsed : Option Time
  Authors : List (Option Person)
  Categories : List String
  deriving DecidableEq, Repr

/-- Go `opengraph.Image`. -/
structure OgImage where
  URL : String
  Width : Int
  Height : Int
  Alt : String
  deriving DecidableEq, Repr

/-- Go `opengraph.Video`. -/
structure OgVideo where
  URL : String
  Width : Int
  Height : Int
  Duration : Int
  deriving DecidableEq, Repr

/-- Go `opengraph.Audio`. -/
structure OgAudio where
  URL : String
  deriving DecidableEq, Repr

/-- Go `opengraph.OpenGraph`, the fields the handler reads. -/
structure OpenGraph where
  Title : String
  Description : String
  Image : List OgImage
  Video : List OgVideo
  Audio : List OgAudio
  deriving DecidableEq, Repr

/-- Go `entity.MediaType`. -/
inductive MediaType where
  | ImageType
  | VideoType
  | AudioType
  deriving DecidableEq, Repr

/-- Values stored in the `map[string]any` metadata bag of a media record. -/
inductive MetaValue where
  | int (n : Int)
  | str (s : String)
  deriving DecidableEq, Repr

/-- Go `entity.Media`; `Meta` lists the bag's entries (empty for a nil map). -/
structure Media where
  URL : String
  Typ : MediaType
  Meta : List (String × MetaValue)
  deriving DecidableEq, Repr

/-- Go `entity.Feed`, the fields the handler reads. -/
structure Feed where
  ID : UUID
  Link : String
  Languages : List String
  deriving DecidableEq, Repr

/-- Go `entity.Article`. The fields written through `SetShortDesc`, `SetLongDesc`,
`SetAuthors`, `SetCategories` and `SetMedia` are optional: `none` until the setter is called.
`Source` is always `entity.FeedSource` in this handler and is left out. -/
structure Article where
  ID : UUID
  SourceID : UUID
  Lang : String
  Title : String
  Link : String
  PubDate : Time
  ShortDesc : Option String
  LongDesc : Option String
  Authors : Option (List String)
  Categories : Option (List String)
  Media : Option (List Media)
  deriving DecidableEq, Repr

/-- Severity of a `slog` record. -/
inductive Level where
  | debug
  | warn
  | error
  deriving DecidableEq, Repr

/-- The observable state around the handler: the article store's content, and the traces of
page requests, `Save` calls, publication calls and log records, oldest first. -/
structure World where
  articles : List Article
  fetched : List String
  saveCalls : List Article
  published : List (List Article)
  logs : List (Level × String)
  deriving DecidableEq, Repr

/-- Go `http.Response`, the parts `openGraphFetch` reads. -/
structure Response where
  ContentType : String
  StatusCode : Nat
  Body : String
  deriving DecidableEq, Repr

/-- The external collaborators of the handler. Every call may depend on the world at the time
of the call, so that no determinism is built in.

* `uuidParse`, `uuidNew`: `uuid.Parse`, `uuid.New`;
* `FindByID`: `feedRepo.FindByID`;
* `ParseURLWithContext`: the gofeed parser, returning the raw entries (`nil` entries possible);
* `ParseRequestURI`: whether `url.ParseRequestURI` accepts the string;
* `Now`: `time.Now()` as read while normalizing the raw entry with the given index;
* `FindIter`: `articleRepo.FindIter` on the criteria built from the links and the size,
  as the articles the iterator yields;
* `Save`: `articleRepo.Save`, `none` on success;
* `httpDo`: `http.NewRequestWithContext` followed by `http.DefaultClient.Do`;
* `ogParse`: `opengraph.New(url).Parse(body)`;
* `StripHTMLTags`: `strutil.StripHTMLTags`;
* `DetectLang`: `whatlanggo.DetectLang(text).Iso6391()`;
* `ctxDone`: whether `ctx.Done()` is closed when polled. -/
structure Env where
  uuidParse : String → Option UUID
  uuidNew : World → UUID
  FindByID : World → UUID → Except Err Feed
  ParseURLWithContext : World → String → Except Err (List (Option Item))
  ParseRequestURI : String → Bool
  Now : World → Nat → Time
  FindIter : World → List String → Nat → Except Err (List Article)
  Save : World → Article → Option Err
  httpDo : World → String → Except Err Response
  ogParse : String → String → Except Err OpenGraph
  StripHTMLTags : String → String
  DetectLang : String → String
  ctxDone : World → Bool

/-! ## String helpers -/

/-- Go `utf8.RuneCountInString` (Lean strings are sequences of code points). -/
def RuneCountInString (s : String) : Nat := s.length

/-- Go `string([]rune(s)[:n])`. -/
def runeSlice (s : String) (n : Nat) : String := ⟨s.data.take n⟩

/-- Go `strings.TrimSuffix`: one occurrence of the suffix is removed when present. -/
def TrimSuffix (s suffix : String) : String :=
  if suffix.data.isSuffixOf s.data then ⟨s.data.take (s.data.length - suffix.data.length)⟩ else s

/-- Go `strings.HasPrefix`. -/
def HasPrefix (s pre : String) : Bool := pre.data.isPrefixOf s.data

def minShortDesc : Nat := 20

def maxShortDesc : Nat := 500

/-! ## Effects -/

/-- One `h.logger` call. -/
def logAt (w : World) (lvl : Level) (msg : String) : World :=
  { w with logs := w.logs ++ [(lvl, msg)] }

/-- One `h.publisher.Articles` call (`pubsub.FromEntity` is read as the identity). -/
def publishArticles (w : World) (as : List Article) : World :=
  { w with published := w.published ++ [as] }

/-! ## `openGraphFetch`, `parseOpengraphMeta` -/

/-- Go `openGraphFetch`: request the page, require an HTML content type, then a status below
400, then parse the Open Graph tags. -/
def openGraphFetch (env : Env) (w : World) (url : String) : Except Err OpenGraph :=
  match env.httpDo w url with
  | .error err => .error err
  | .ok res =>
    if !HasPrefix res.ContentType "text/html" then .error .other
    else if res.StatusCode ≥ 400 then .error .other
    else env.ogParse url res.Body

/-- Go `parseOpengraphMeta`: the request is recorded in `fetched`. -/
def parseOpengraphMeta (env : Env) (w : World) (link : String) : World × Except Err OpenGraph :=
  let r := openGraphFetch env w link
  let w := { w with fetched := w.fetched ++ [link] }
  match r with
  | .error err => (w, .error err)
  | .ok og => (logAt w .debug "article link parsed", .ok og)

/-! ## `saveArticle` -/

/-- Go `saveArticle`: a failed `Save` is logged (not even that on cancellation) and nothing is
returned; a successful one stores the article and publishes it. -/
def saveArticle (env : Env) (w : World) (article : Article) : World :=
  let r := env.Save w article
  let w := { w with saveCalls := w.saveCalls ++ [article] }
  match r with
  | some err =>
    if IsCanceledOrDeadline err then w
    else if err = .duplicateKey then logAt w .debug "error due to save article, duplicate key"
    else logAt w .error "error due to save article"
  | none =>
    let w := { w with articles := w.articles ++ [article] }
    let w := logAt w .debug "article saved"
    publishArticles w [article]

/-! ## `processItem` -/

/-- Lines 109-113: the entry description, else the content body, else the page description. -/
def resolveDescription (item : Item) (og : OpenGraph) : String :=
  if item.Description = "" then
    if item.Content = "" then og.Description else item.Content
  else item.Description

/-- Lines 117-122: the short description. -/
def deriveShortDesc (env : Env) (og : OpenGraph) (description : String) : String :=
  let shortDesc := env.StripHTMLTags og.Description
  if RuneCountInString shortDesc < minShortDesc then
    let shortDesc := env.StripHTMLTags description
    if RuneCountInString shortDesc > maxShortDesc then
      TrimSuffix (runeSlice shortDesc (maxShortDesc - 3)) "." ++ "..."
    else shortDesc
  else shortDesc

/-- Lines 124-130: the title. -/
def resolveTitle (env : Env) (title : String) (og : OpenGraph) (shortDesc : String) : String :=
  let t := env.StripHTMLTags title
  if t = "" then
    let t := env.StripHTMLTags og.Title
    if t = "" then
      if RuneCountInString shortDesc > 100 then
        TrimSuffix (runeSlice shortDesc 97) "." ++ "..."
      else shortDesc
    else t
  else t

/-- Lines 137-144: the language code, `none` when the entry is to be skipped. -/
def resolveLang (env : Env) (feed : Feed) (text : String) : Option String :=
  let lang := env.DetectLang text
  if lang = "" ∨ lang = "xx" then
    match feed.Languages with
    | l :: _ => some l
    | [] => none
  else some lang

/-- The text line 137 hands to the language detector for an entry and its fetched page: the
resolved title, the short description and the resolved description, separated by blanks. -/
def detectionText (env : Env) (item : Item) (og : OpenGraph) : String :=
  resolveTitle env item.Title og (deriveShortDesc env og (resolveDescription item og))
    ++ " " ++ deriveShortDesc env og (resolveDescription item og) ++ " "
    ++ resolveDescription item og

/-- Lines 164-171: the stripped, non-empty author names. -/
def collectAuthors (env : Env) : List (Option Person) → List String
  | [] => []
  | none :: rest => collectAuthors env rest
  | some author :: rest =>
    let name := env.StripHTMLTags author.Name
    if name ≠ "" then name :: collectAuthors env rest else collectAuthors env rest

/-- Lines 177-182: the stripped, non-empty categories. -/
def collectCategories (env : Env) : List String → List String
  | [] => []
  | category :: rest =>
    let category := env.StripHTMLTags category
    if category ≠ "" then category :: collectCategories env rest
    else collectCategories env rest

/-- Lines 188-205: the media records, images first, then videos, then audios. -/
def collectMedia (og : OpenGraph) : List Media :=
  og.Image.map (fun i => Media.mk i.URL .ImageType
      [("width", .int i.Width), ("height", .int i.Height), ("alt", .str i.Alt)])
  ++ og.Video.map (fun i => Media.mk i.URL .VideoType
      [("width", .int i.Width), ("height", .int i.Height), ("duration", .int i.Duration)])
  ++ og.Audio.map (fun i => Media.mk i.URL .AudioType [])

/-- Dereference of a `*time.Time`. A nil pointer panics in Go; the value chosen for it here is
never used on the output of `parseFeed`, whose entries all carry a timestamp. -/
def derefTime : Option Time → Time
  | some t => t
  | none => 0

/-- Lines 146-209: the article built from the enriched entry. -/
def buildArticle (env : Env) (w : World) (feed : Feed) (item : Item) (og : OpenGraph)
    (lang shortDesc : String) : Article :=
  let authors := collectAuthors env item.Authors
  let categories := collectCategories env item.Categories
  let media := collectMedia og
  { ID := env.uuidNew w
    SourceID := feed.ID
    Lang := lang
    Title := item.Title
    Link := item.Link
    PubDate := derefTime item.PublishedParsed
    ShortDesc := if RuneCountInString shortDesc ≥ 50 then some shortDesc else none
    LongDesc := if RuneCountInString item.Description ≥ 50 then some item.Description else none
    Authors := if authors.length > 0 then some authors else none
    Categories := if categories.length > 0 then some categories else none
    Media := if media.length > 0 then some media else none }

/-- Go `processItem`. -/
def processItem (env : Env) (w : World) (feed : Feed) (item : Item) : World :=
  match parseOpengraphMeta env w item.Link with
  | (w, .error err) =>
    if !IsCanceledOrDeadline err then logAt w .error "error due to parse feed item's link"
    else w
  | (w, .ok og) =>
    let item := { item with Description := resolveDescription item og }
    let shortDesc := deriveShortDesc env og item.Description
    let item := { item with Title := resolveTitle env item.Title og shortDesc }
    if item.Title = "" then logAt w .warn "article title not found"
    else
      match resolveLang env feed (item.Title ++ " " ++ shortDesc ++ " " ++ item.Description) with
      | none => logAt w .warn "feed item's lang not detected"
      | some lang => saveArticle env w (buildArticle env w feed item og lang shortDesc)

/-! ## `parseFeed` -/

/-- Lines 245-252: the publish timestamp, else the update timestamp, else the clock. -/
def resolveTimestamp (env : Env) (w : World) (i : Nat) (item : Item) : Item :=
  match item.PublishedParsed with
  | some _ => item
  | none =>
    match item.UpdatedParsed with
    | some u => { item with PublishedParsed := some u }
    | none => { item with PublishedParsed := some (env.Now w i) }

/-- Lines 227-255: the loop over the raw entries, from index `i`, carrying the function's
`err` variable, which both calls to `url.ParseRequestURI` assign. Returns the entries kept
and the value `err` holds after the loop. -/
def normalizeItems (env : Env) (w : World) : Nat → List (Option Item) → Option Err →
    List Item × Option Err
  | _, [], err => ([], err)
  | i, none :: rest, err => normalizeItems env w (i + 1) rest err
  | i, some item :: rest, _ =>
    if env.ParseRequestURI item.GUID then
      let item := { item with Link := item.GUID }
      let r := normalizeItems env w (i + 1) rest none
      (resolveTimestamp env w i item :: r.1, r.2)
    else
      let item := if item.Link = "" ∧ item.Links.length > 0 then
        { item with Link := item.Links.headD "" } else item
      if env.ParseRequestURI item.Link then
        let r := normalizeItems env w (i + 1) rest none
        (resolveTimestamp env w i item :: r.1, r.2)
      else normalizeItems env w (i + 1) rest (some .invalidURI)

/-- Go `sort.Slice`: a comparison sort by `less`. It is the insertion sort Go runs on slices
of at most 12 elements; on longer ones Go may order equal elements differently. -/
def sortSlice {α : Type} (less : α → α → Bool) (xs : List α) : List α :=
  xs.insertionSort (fun a b => less b a = false)

/-- The comparator of line 260. -/
def itemBefore (a b : Item) : Bool :=
  decide (derefTime a.PublishedParsed < derefTime b.PublishedParsed)

/-- Go `parseFeed`: the world, `parsed.Items` and `err` as returned (Go returns both). -/
def parseFeed (env : Env) (w : World) (link : String) : World × List Item × Option Err :=
  match env.ParseURLWithContext w link with
  | .error err => (w, [], some err)
  | .ok raw =>
    let r := normalizeItems env w 0 raw none
    let items := sortSlice itemBefore r.1
    (logAt w .debug "feed link parsed", items, r.2)

/-! ## `findLastIndex` -/

/-- Lines 291-294: the `seen` map, filled from index `i` on; a later entry with the same link
overwrites the earlier one. -/
def buildSeen : Nat → List Item → (String → Option Nat) → String → Option Nat
  | _, [], seen => seen
  | i, item :: rest, seen =>
    buildSeen (i + 1) rest (fun k => if k = item.Link then some i else seen k)

/-- Go `findLastIndex`: the position of the first article the store yields whose link is in
`seen`, `-1` when there is none. -/
def findLastIndex (env : Env) (w : World) (items : List Item) : Except Err Int :=
  let seen := buildSeen 0 items (fun _ => none)
  let links := items.map (fun item => item.Link)
  match env.FindIter w links links.length with
  | .error err => .error err
  | .ok found =>
    match found.findSome? (fun article => seen article.Link) with
    | some i => .ok (i : Int)
    | none => .ok (-1)

/-! ## `ProcessTask` -/

/-- Lines 87-97: the loop over the new entries, with the cancellation poll before each. -/
def processLoop (env : Env) (feed : Feed) : List Item → World → World × Option Err
  | [], w => (w, none)
  | item :: rest, w =>
    if env.ctxDone w then (w, none)
    else processLoop env feed rest (processItem env w feed item)

/-- Lines 74-85: the entries after the cursor, `none` for the early `return nil`. -/
def trimItems (items : List Item) (lastIndex : Int) : Option (List Item) :=
  if lastIndex > -1 then
    if (items.length : Int) - lastIndex - 1 > 0 then some (items.drop (lastIndex + 1).toNat)
    else none
  else some items

/-- Lines 69-97 of `ProcessTask`: cursor resolution, trimming, and the loop. -/
def processParsed (env : Env) (feed : Feed) (w : World) (items : List Item) :
    World × Option Err :=
  match findLastIndex env w items with
  | .error err => (w, some err)
  | .ok lastIndex =>
    match trimItems items lastIndex with
    | none => (w, none)
    | some items => processLoop env feed items w

/-- Go `ProcessTask`: the final world and the returned error (`none` for `nil`). -/
def ProcessTask (env : Env) (w : World) (payload : Option String) : World × Option Err :=
  match payload with
  | none => (logAt w .warn "task payload is empty", none)
  | some p =>
    match env.uuidParse p with
    | none => (logAt w .error "error due to parse uuid", none)
    | some id =>
      match env.FindByID w id with
      | .error err =>
        if err = .entityNotFound then (logAt w .error "error due to find feed", none)
        else (w, some err)
      | .ok feed =>
        match parseFeed env w feed.Link with
        | (w, _, some err) =>
          (if !IsCanceledOrDeadline err then logAt w .error "error due to parse feed" else w,
            none)
        | (w, items, none) => processParsed env feed w items

/-! ## `ArticleActions.List` (`internal/http/front/api_article.go`) -/

/-- The `bson.M` filter on feeds that `List` builds: `enabled`, and the optional `host` and
`_id` membership conditions. -/
structure FeedsFilter where
  enabled : Bool
  host : Option (List String)
  id : Option (List String)
  deriving DecidableEq, Repr

/-- The `bson.M` filter on articles that `List` builds: the `source_id` membership condition
and the optional `lang` one. -/
structure ArticlesFilter where
  source_id : List UUID
  lang : Option (List String)
  deriving DecidableEq, Repr

/-- Go `repository.Criteria` as `List` fills it: the sort key with its direction, the filter,
and the values `Index` and `Size` point to after `SetIndex` and `SetSize`. -/
structure Criteria where
  SortBy : List (String × Int)
  Filter : ArticlesFilter
  Index : Int
  Size : Int
  deriving DecidableEq, Repr

/-- Go `action.ListResponse`; `Data` stays `none` when it is not assigned. -/
structure ListResponse where
  Total : Int
  Index : Int
  Size : Int
  Data : Option (List Article)
  deriving DecidableEq, Repr

/-- The outcome of the handler: it returns an error value without writing a body (`none` for
`nil`), or it writes a JSON response with a status. -/
inductive ListResult where
  | returned (err : Option Err)
  | json (status : Nat) (response : ListResponse)
  deriving DecidableEq, Repr

/-- The collaborators of `List`: the names `db.QueryIndex` and `db.QuerySize` of the paging
parameters, `cast.ToInt64`, `strings.Split(s, ",")`, the value a criteria field holds after
`SetIndex` and after `SetSize`, and the three repository calls. -/
structure ListEnv where
  QueryIndex : String
  QuerySize : String
  ToInt64 : String → Int
  Split : String → List String
  SetIndex : Int → Int
  SetSize : Int → Int
  feedFind : FeedsFilter → Except Err (List Feed)
  articleCount : ArticlesFilter → Except Err Int
  articleFind : Criteria → Except Err (List Article)

/-- Go `url.Values.Has`. -/
def queryHas (query : String → Option String) (key : String) : Bool := (query key).isSome

/-- Go `url.Values.Get`: the empty string for an absent key. -/
def queryGet (query : String → Option String) (key : String) : String := (query key).getD ""

/-- The page size lines 61-64 compute from the request: the `size` parameter, or 20 when it
is not positive. -/
def requestedSize (env : ListEnv) (query : String → Option String) : Int :=
  let size := env.ToInt64 (queryGet query env.QuerySize)
  if size ≤ 0 then 20 else size

/-- Go `ArticleActions.List`, on the query parameters of the request. Lines 61-64 compute
`requestedSize`; line 65 calls `criteria.SetSize(20)`. -/
def ArticleActions.List (env : ListEnv) (query : String → Option String) : ListResult :=
  let feedsFilter : FeedsFilter :=
    { enabled := true
      host := if queryHas query "host" then some (env.Split (queryGet query "host")) else none
      id := if queryHas query "source_id" then some (env.Split (queryGet query "source_id"))
        else none }
  match env.feedFind feedsFilter with
  | .error _ => .returned none
  | .ok feeds =>
    let sources := feeds.map (fun f => f.ID)
    let articlesFilter : ArticlesFilter :=
      { source_id := sources
        lang := if queryHas query "lang" then some (env.Split (queryGet query "lang"))
          else none }
    match env.articleCount articlesFilter with
    | .error err => .returned (some err)
    | .ok total =>
      let index := env.SetIndex (env.ToInt64 (queryGet query env.QueryIndex))
      let _size := requestedSize env query
      let criteria : Criteria :=
        { SortBy := [("pub_date", -1)], Filter := articlesFilter, Index := index,
          Size := env.SetSize 20 }
      let response : ListResponse :=
        { Total := total, Index := criteria.Index, Size := criteria.Size, Data := none }
      if total > 0 then
        match env.articleFind criteria with
        | .error err => .returned (some err)
        | .ok data => .json 200 { response with Data := some data }
      else .json 200 response

/-- A stand-in for `cast.ToInt64` on strings: the value of a string of decimal digits, 0 for
any other string. -/
def digitsToInt64 (s : String) : Int :=
  if s.data.all (fun c => c.isDigit) then
    (s.data.foldl (fun n c => 10 * n + (c.toNat - 48)) 0 : Nat)
  else 0

/-- The feed of the sample listing environment. -/
def sampleFeedForList : Feed := ⟨7, "https://feed.example/rss", ["en"]⟩

/-- A listing environment with the parameter names of the API documentation (`index`,
`size`), plain setters, one enabled feed and a store of `total` articles whose `Find` returns
nothing but records nothing either. -/
def sampleListEnv (total : Int) : ListEnv where
  QueryIndex := "index"
  QuerySize := "size"
  ToInt64 := digitsToInt64
  Split := fun s => [s]
  SetIndex := fun v => v
  SetSize := fun v => v
  feedFind := fun _ => .ok [sampleFeedForList]
  articleCount := fun _ => .ok total
  articleFind := fun _ => .ok []

/-! ## Sample data -/

def emptyWorld : World := ⟨[], [], [], [], []⟩

def sampleFeed : Feed := ⟨7, "https://feed.example/rss", ["en"]⟩

/-- A raw entry with a title, a link and a publish timestamp, and no identifier. -/
def sampleItem (link : String) (t : Time) : Item :=
  ⟨"Title of " ++ link, "", "", link, [], "", some t, none, [], []⟩

/-- The article `processItem` builds from `sampleItem link t` in the sample environment. -/
def sampleArticle (id : UUID) (link : String) (t : Time) : Article :=
  ⟨id, 7, "en", "Title of " ++ link, link, t, none, none, none, none, none⟩

/-- An environment in which the feed `sampleFeed` is found, every page is an empty HTML page,
stripping is the identity, detection answers `lang`, nothing is cancelled, and the feed
document, the store query and `Save` are as given. -/
def sampleEnv (raw : Except Err (List (Option Item)))
    (find : World → List String → Nat → Except Err (List Article))
    (save : World → Article → Option Err) (lang : String) : Env where
  uuidParse := fun _ => some 7
  uuidNew := fun w => w.saveCalls.length
  FindByID := fun _ _ => .ok sampleFeed
  ParseURLWithContext := fun _ _ => raw
  ParseRequestURI := fun s => s != ""
  Now := fun _ _ => 1000
  FindIter := find
  Save := save
  httpDo := fun _ _ => .ok ⟨"text/html; charset=utf-8", 200, ""⟩
  ogParse := fun _ _ => .ok ⟨"", "", [], [], []⟩
  StripHTMLTags := fun s => s
  DetectLang := fun _ => lang
  ctxDone := fun _ => false

/-! ## The article store -/

/-- Modelled from the spec: the store operation `SaveArticle(Article) -> OK | DuplicateKey`
behind `articleRepo.Save` (the repository implementation is not part of the handler's source),
for a store that rejects a link it already holds and accepts any other article. -/
def SaveArticle (store : List Article) (a : Article) : Option Err :=
  if a.Link ∈ store.map (fun b => b.Link) then some .duplicateKey else none

/-- Modelled from the spec: the store operation
`FindArticlesByLinks(links, sortDescByPubDate, limit)` behind `articleRepo.FindIter` (the
repository implementation is not part of the handler's source): the stored articles whose
link is among `links`, by descending publish time (equal times in storage order), at most
`limit` of them. -/
def FindArticlesByLinks (store : List Article) (links : List String) (limit : Nat) :
    List Article :=
  ((store.filter (fun a => decide (a.Link ∈ links))).insertionSort
    (fun a b => a.PubDate ≥ b.PubDate)).take limit

/-- One step of the pass that finds the first element of a list sorted, by insertion, by
descending publish time: `x` comes first unless `h` is strictly later. -/
def pickFirst (x : Article) : Option Article → Option Article
  | none => some x
  | some h => if x.PubDate ≥ h.PubDate then some x else some h

/-- The sample environment on the store above. -/
def storeEnv (raw : List (Option Item)) : Env :=
  sampleEnv (.ok raw) (fun w links n => .ok (FindArticlesByLinks w.articles links n))
    (fun w a => SaveArticle w.articles a) "en"

/-- A raw entry with a title and a link, and neither a publish nor an update timestamp. -/
def undatedItem (link : String) : Item :=
  ⟨"Title of " ++ link, "", "", link, [], "", none, none, [], []⟩

/-- The store environment with a clock that reads 50 as long as nothing is logged and 200
afterwards. -/
def clockEnv (raw : List (Option Item)) : Env :=
  { storeEnv raw with Now := fun w _ => if w.logs.length = 0 then 50 else 200 }

/-- The store environment with a context that is found cancelled when polled after exactly
three log records. -/
def cancelEnv (raw : List (Option Item)) : Env :=
  { storeEnv raw with ctxDone := fun w => decide (w.logs.length = 3) }

/-- The store environment on a feed of four entries `p`, `q`, `r`, `s`, all published at 10,
whose store answers the cursor query by descending publish time but orders equal times
differently from one query to the next: latest stored first as long as no page has been
requested, earliest stored first afterwards. -/
def tieEnv : Env :=
  { storeEnv [some (sampleItem "https://x/p" 10), some (sampleItem "https://x/q" 10),
      some (sampleItem "https://x/r" 10), some (sampleItem "https://x/s" 10)] with
    FindIter := fun w links n =>
      if w.fetched.length = 0 then .ok (FindArticlesByLinks w.articles.reverse links n)
      else .ok (FindArticlesByLinks w.articles links n) }

/-- A world whose store holds the articles of `p` and `r`. -/
def tieStored : World :=
  ⟨[sampleArticle 8 "https://x/p" 10, sampleArticle 9 "https://x/r" 10], [], [], [], []⟩

/-- Ten entries `e1..e10` with distinct links and publish times `1..10`. -/
def tenEntries : List Item :=
  [sampleItem "https://x/1" 1, sampleItem "https://x/2" 2, sampleItem "https://x/3" 3,
   sampleItem "https://x/4" 4, sampleItem "https://x/5" 5, sampleItem "https://x/6" 6,
   sampleItem "https://x/7" 7, sampleItem "https://x/8" 8, sampleItem "https://x/9" 9,
   sampleItem "https://x/10" 10]

/-- A world whose store holds the articles of `e1..e6`, as a prior run left them. -/
def sixStored : World :=
  ⟨[sampleArticle 0 "https://x/1" 1, sampleArticle 1 "https://x/2" 2,
    sampleArticle 2 "https://x/3" 3, sampleArticle 3 "https://x/4" 4,
    sampleArticle 4 "https://x/5" 5, sampleArticle 5 "https://x/6" 6], [], [], [], []⟩

/-! ## One raw entry of the feed -/

/-- Lines 232-243 for one raw entry: the link the entry is kept with, `none` when the entry is
dropped. -/
def canonicalLink (env : Env) (item : Item) : Option String :=
  if env.ParseRequestURI item.GUID then some item.GUID
  else
    let link := if item.Link = "" ∧ item.Links.length > 0 then item.Links.headD "" else item.Link
    if env.ParseRequestURI link then some link else none

/-- Lines 228-254 for the raw entry with index `i`: the normalized entry, `none` when the
entry is dropped. -/
def normalizeOne (env : Env) (w : World) (i : Nat) (item : Item) : Option Item :=
  match canonicalLink env item with
  | none => none
  | some link => some (resolveTimestamp env w i { item with Link := link })

/-- The scan of Go's `getScheme` after a leading letter: letters, digits, "+", "-" and "."
up to a ":". -/
def schemeTail : List Char → Bool
  | [] => false
  | c :: rest =>
    if c = ':' then true
    else if c.isAlpha || c.isDigit || c = '+' || c = '-' || c = '.' then schemeTail rest
    else false

/-- A stand-in for Go's `url.ParseRequestURI`, which reads its argument as an absolute URI
or an absolute path: a string that starts with "/" or with a scheme is accepted, the empty
string and a reference with neither are rejected. (Go also rejects control bytes and
malformed authorities or escapes; none occurs in the sample data.) -/
def requestURIAccepts (s : String) : Bool :=
  match s.data with
  | [] => false
  | c :: rest => c = '/' || (c.isAlpha && schemeTail rest)

/-- The sample environment with the link check above. -/
def uriEnv (raw : List (Option Item)) : Env :=
  { sampleEnv (.ok raw) (fun _ _ _ => .ok []) (fun _ _ => none) "en" with
    ParseRequestURI := requestURIAccepts }

/-! ## Sample pages -/

/-- The scan of a tag stripper: characters between "<" and the next ">" are dropped. -/
def stripTags : List Char → Bool → List Char
  | [], _ => []
  | c :: rest, inTag =>
    if c = '<' then stripTags rest true
    else if inTag then (if c = '>' then stripTags rest false else stripTags rest true)
    else c :: stripTags rest false

/-- A stand-in for `strutil.StripHTMLTags`: every "<...>" tag is removed. -/
def tagStrip (s : String) : String := ⟨stripTags s.data false⟩

/-- The sample environment with the tag stripper above and a page with the given Open Graph
data. -/
def pageEnv (og : OpenGraph) : Env :=
  { sampleEnv (.ok []) (fun _ _ _ => .ok []) (fun _ _ => none) "en" with
    ogParse := fun _ _ => .ok og
    StripHTMLTags := tagStrip }

/-- A description made only of markup, 52 runes long. -/
def markupOnly : String := "<div><p><span><b><i><u></u></i></b></span></p></div>"

/-- A plain content body, 60 runes long. -/
def plainBody : String := "The quick brown fox jumps over the lazy dog, again and again."

/-- A plain text of 600 runes. -/
def longText : String := ⟨List.replicate 600 'a'⟩

/-- A plain text of 600 runes whose 496th and 497th runes are periods. -/
def dottedText : String :=
  ⟨List.replicate 495 'a' ++ ['.', '.'] ++ List.replicate 103 'b'⟩

/-- A plain text of 501 runes. -/
def overlongText : String := ⟨List.replicate 501 'a'⟩

/-! ## Basic facts about the persister and the enricher -/

theorem saveArticle_saveCalls (env : Env) (w : World) (a : Article) :
    (saveArticle env w a).saveCalls = w.saveCalls ++ [a] := by
  unfold saveArticle
  cases env.Save w a <;> simp [logAt, publishArticles]
  split_ifs <;> rfl

theorem saveArticle_fetched (env : Env) (w : World) (a : Article) :
    (saveArticle env w a).fetched = w.fetched := by
  unfold saveArticle
  cases env.Save w a <;> simp [logAt, publishArticles]
  split_ifs <;> rfl

theorem saveArticle_ok (env : Env) (w : World) (a : Article) (h : env.Save w a = none) :
    (saveArticle env w a).articles = w.articles ++ [a] ∧
    (saveArticle env w a).published = w.published ++ [[a]] := by
  unfold saveArticle
  simp [h, logAt, publishArticles]

theorem saveArticle_fail (env : Env) (w : World) (a : Article) (h : env.Save w a ≠ none) :
    (saveArticle env w a).articles = w.articles ∧
    (saveArticle env w a).published = w.published := by
  unfold saveArticle
  cases hs : env.Save w a with
  | none => exact absurd hs h
  | some err => simp only [logAt]; split_ifs <;> exact ⟨rfl, rfl⟩

theorem parseOpengraphMeta_world (env : Env) (w : World) (link : String) :
    (parseOpengraphMeta env w link).1.fetched = w.fetched ++ [link] ∧
    (parseOpengraphMeta env w link).1.articles = w.articles ∧
    (parseOpengraphMeta env w link).1.saveCalls = w.saveCalls ∧
    (parseOpengraphMeta env w link).1.published = w.published := by
  unfold parseOpengraphMeta
  cases openGraphFetch env w link <;> simp [logAt]

theorem parseOpengraphMeta_result (env : Env) (w : World) (link : String) :
    (parseOpengraphMeta env w link).2 = openGraphFetch env w link := by
  unfold parseOpengraphMeta
  cases openGraphFetch env w link <;> rfl

/-- What one call of `processItem` does: the page is requested; then either the entry is
skipped, leaving store, `Save` trace and publications as they were, or exactly one article,
carrying the entry's link and timestamp and a non-empty title, goes to `saveArticle`. -/
theorem processItem_cases (env : Env) (w : World) (feed : Feed) (item : Item) :
    (processItem env w feed item).fetched = w.fetched ++ [item.Link] ∧
    (((processItem env w feed item).saveCalls = w.saveCalls ∧
      (processItem env w feed item).articles = w.articles ∧
      (processItem env w feed item).published = w.published) ∨
     ∃ a, a.Link = item.Link ∧ a.PubDate = derefTime item.PublishedParsed ∧
      a.SourceID = feed.ID ∧ a.Title ≠ "" ∧
      processItem env w feed item = saveArticle env (parseOpengraphMeta env w item.Link).1 a) := by
  obtain ⟨hf, ha, hs, hp⟩ := parseOpengraphMeta_world env w item.Link
  unfold processItem
  rcases hpm : parseOpengraphMeta env w item.Link with ⟨w1, r⟩
  rw [hpm] at hf ha hs hp
  simp only at hf ha hs hp
  cases r with
  | error err =>
    simp only
    split_ifs <;> simp [logAt, hf, ha, hs, hp]
  | ok og =>
    simp only
    split_ifs with ht
    · simp [logAt, hf, ha, hs, hp]
    · split
      · simp [logAt, hf, ha, hs, hp]
      · rename_i lang _
        refine ⟨by rw [saveArticle_fetched]; exact hf, Or.inr ⟨_, ?_, ?_, ?_, ?_, rfl⟩⟩
        · rfl
        · rfl
        · rfl
        · exact ht

/-- The enricher on a page that was fetched and parsed: lines 109-211, with the world left by
`parseOpengraphMeta`. -/
theorem processItem_of_fetch (env : Env) (w : World) (feed : Feed) (item : Item)
    (og : OpenGraph) (h : openGraphFetch env w item.Link = .ok og) :
    processItem env w feed item =
      if resolveTitle env item.Title og
          (deriveShortDesc env og (resolveDescription item og)) = "" then
        logAt (parseOpengraphMeta env w item.Link).1 .warn "article title not found"
      else
        match resolveLang env feed
          (resolveTitle env item.Title og (deriveShortDesc env og (resolveDescription item og))
            ++ " " ++ deriveShortDesc env og (resolveDescription item og) ++ " "
            ++ resolveDescription item og) with
        | none => logAt (parseOpengraphMeta env w item.Link).1 .warn
            "feed item's lang not detected"
        | some lang =>
          saveArticle env (parseOpengraphMeta env w item.Link).1
            (buildArticle env (parseOpengraphMeta env w item.Link).1 feed
              { item with
                Description := resolveDescription item og
                Title := resolveTitle env item.Title og
                  (deriveShortDesc env og (resolveDescription item og)) }
              og lang (deriveShortDesc env og (resolveDescription item og))) := by
  have hr := parseOpengraphMeta_result env w item.Link
  unfold processItem
  rcases hpm : parseOpengraphMeta env w item.Link with ⟨w1, r⟩
  rw [hpm] at hr
  simp only at hr
  rw [h] at hr
  subst hr
  rfl

/-! ## The loop -/

theorem processLoop_ret (env : Env) (feed : Feed) :
    ∀ (items : List Item) (w : World), (processLoop env feed items w).2 = none
  | [], _ => rfl
  | item :: rest, w => by
    unfold processLoop
    split_ifs
    · rfl
    · exact processLoop_ret env feed rest _

theorem processLoop_fetched (env : Env) (feed : Feed) (hnc : ∀ w, env.ctxDone w = false) :
    ∀ (items : List Item) (w : World),
      (processLoop env feed items w).1.fetched = w.fetched ++ items.map (fun item => item.Link)
  | [], w => by simp [processLoop]
  | item :: rest, w => by
    unfold processLoop
    rw [if_neg (by simp [hnc w]), processLoop_fetched env feed hnc rest,
      (processItem_cases env w feed item).1]
    simp

/-! ## The `seen` map and the cursor -/

theorem buildSeen_of_not_mem (k : String) :
    ∀ (items : List Item) (i : Nat) (seen : String → Option Nat),
      (∀ y ∈ items, y.Link ≠ k) → buildSeen i items seen k = seen k
  | [], _, _, _ => rfl
  | x :: rest, i, seen, h => by
    have hx : k ≠ x.Link := Ne.symm (h x (List.mem_cons_self _ _))
    rw [buildSeen, buildSeen_of_not_mem k rest (i + 1) _
      (fun y hy => h y (List.mem_cons_of_mem _ hy))]
    simp [hx]

theorem buildSeen_last (k : String) :
    ∀ (pre : List Item) (e : Item) (post : List Item) (i : Nat) (seen : String → Option Nat),
      e.Link = k → (∀ y ∈ post, y.Link ≠ k) →
      buildSeen i (pre ++ e :: post) seen k = some (i + pre.length)
  | [], e, post, i, seen, he, hp => by
    simp only [List.nil_append, buildSeen]
    rw [buildSeen_of_not_mem k post _ _ hp]
    simp [he]
  | x :: pre, e, post, i, seen, he, hp => by
    show buildSeen (i + 1) (pre ++ e :: post) _ k = _
    rw [buildSeen_last k pre e post (i + 1) _ he hp]
    simp only [List.length_cons, Option.some.injEq]
    omega

/-- A link that occurs among the entries has a last occurrence. -/
theorem exists_last_occurrence (k : String) :
    ∀ (items : List Item), k ∈ items.map (fun item => item.Link) →
      ∃ pre e post, items = pre ++ e :: post ∧ e.Link = k ∧ ∀ y ∈ post, y.Link ≠ k
  | [], h => by simp at h
  | x :: rest, h => by
    by_cases hr : k ∈ rest.map (fun item => item.Link)
    · obtain ⟨pre, e, post, hd, he, hp⟩ := exists_last_occurrence k rest hr
      exact ⟨x :: pre, e, post, by simp [hd], he, hp⟩
    · have hx : x.Link = k := by
        simp only [List.map_cons, List.mem_cons] at h
        rcases h with h | h
        · exact h.symm
        · exact absurd h hr
      refine ⟨[], x, rest, rfl, hx, ?_⟩
      intro y hy hyk
      exact hr (List.mem_map.mpr ⟨y, hy, hyk⟩)

theorem buildSeen_isSome (items : List Item) (k : String) :
    (buildSeen 0 items (fun _ => none) k).isSome =
      decide (k ∈ items.map (fun item => item.Link)) := by
  by_cases h : k ∈ items.map (fun item => item.Link)
  · obtain ⟨pre, e, post, hd, he, hp⟩ := exists_last_occurrence k items h
    rw [hd, buildSeen_last k pre e post 0 _ he hp, ← hd]
    simp [h]
  · rw [buildSeen_of_not_mem k items 0 _
      (fun y hy hyk => h (List.mem_map.mpr ⟨y, hy, hyk⟩))]
    simp [h]

theorem findSome_eq_find_bind {α β : Type} (f : α → Option β) (p : α → Bool)
    (hfp : ∀ x, (f x).isSome = p x) :
    ∀ (l : List α), l.findSome? f = (l.find? p).bind f
  | [] => rfl
  | x :: rest => by
    have hx := hfp x
    cases hfx : f x with
    | none =>
      rw [hfx] at hx
      simp only [List.findSome?, hfx, List.find?, ← hx, Option.isSome_none]
      exact findSome_eq_find_bind f p hfp rest
    | some b =>
      rw [hfx] at hx
      simp [List.findSome?, hfx, List.find?, ← hx]

/-- The value `findLastIndex` returns, in terms of the first yielded article whose link is a
candidate link. -/
theorem findLastIndex_eq (env : Env) (w : World) (items : List Item) (found : List Article)
    (hfind : env.FindIter w (items.map (fun item => item.Link)) items.length = .ok found) :
    findLastIndex env w items =
      match found.find? (fun a => decide (a.Link ∈ items.map (fun item => item.Link))) with
      | some a =>
        match buildSeen 0 items (fun _ => none) a.Link with
        | some i => .ok (i : Int)
        | none => .ok (-1)
      | none => .ok (-1) := by
  unfold findLastIndex
  simp only [List.length_map, hfind]
  rw [findSome_eq_find_bind (fun article : Article => buildSeen 0 items (fun _ => none) article.Link)
    (fun a => decide (a.Link ∈ items.map (fun item => item.Link)))
    (fun x => buildSeen_isSome items x.Link)]
  cases found.find? (fun a => decide (a.Link ∈ items.map (fun item => item.Link))) with
  | none => rfl
  | some a => simp only [Option.bind]

theorem trimItems_split (pre : List Item) (e : Item) (post : List Item) :
    trimItems (pre ++ e :: post) (pre.length : Int) =
      if post = [] then none else some post := by
  unfold trimItems
  have h1 : ((pre.length : Int) > -1) := by omega
  rw [if_pos h1]
  by_cases hp : post = []
  · subst hp
    simp
  · have hl : 0 < post.length := List.length_pos.mpr hp
    rw [if_neg hp, if_pos (by simp only [List.length_append, List.length_cons]; omega)]
    have : ((pre.length : Int) + 1).toNat = pre.length + 1 := by omega
    rw [this]
    simp

theorem processParsed_split (env : Env) (feed : Feed) (w : World) (pre : List Item) (e : Item)
    (post : List Item) (h : findLastIndex env w (pre ++ e :: post) = .ok (pre.length : Int)) :
    processParsed env feed w (pre ++ e :: post) = processLoop env feed post w := by
  unfold processParsed
  rw [h]
  simp only [trimItems_split]
  by_cases hp : post = []
  · subst hp
    simp [processLoop]
  · simp [hp]

/-! ## The feed normalizer -/

theorem parseFeed_world (env : Env) (w : World) (link : String) :
    (parseFeed env w link).1.fetched = w.fetched ∧
    (parseFeed env w link).1.articles = w.articles ∧
    (parseFeed env w link).1.saveCalls = w.saveCalls ∧
    (parseFeed env w link).1.published = w.published := by
  unfold parseFeed
  cases env.ParseURLWithContext w link <;> simp [logAt]

theorem normalizeItems_congr (env env2 : Env) (w : World)
    (h1 : env2.ParseRequestURI = env.ParseRequestURI) (h2 : env2.Now = env.Now) :
    ∀ (raw : List (Option Item)) (i : Nat) (err : Option Err),
      normalizeItems env2 w i raw err = normalizeItems env w i raw err
  | [], _, _ => rfl
  | none :: rest, i, err => by
    simp only [normalizeItems]
    exact normalizeItems_congr env env2 w h1 h2 rest (i + 1) err
  | some item :: rest, i, err => by
    simp only [normalizeItems, resolveTimestamp, h1, h2,
      normalizeItems_congr env env2 w h1 h2 rest (i + 1)]

theorem parseFeed_congr (env env2 : Env) (w : World) (link : String)
    (h0 : env2.ParseURLWithContext = env.ParseURLWithContext)
    (h1 : env2.ParseRequestURI = env.ParseRequestURI) (h2 : env2.Now = env.Now) :
    parseFeed env2 w link = parseFeed env w link := by
  unfold parseFeed
  rw [h0]
  cases env.ParseURLWithContext w link with
  | error err => rfl
  | ok raw => simp only [normalizeItems_congr env env2 w h1 h2]

/-- The value `ProcessTask` returns is fixed before the first entry is processed. -/
theorem ProcessTask_ret (env : Env) (w : World) (payload : Option String) :
    (ProcessTask env w payload).2 =
      match payload with
      | none => none
      | some p =>
        match env.uuidParse p with
        | none => none
        | some id =>
          match env.FindByID w id with
          | .error err => if err = .entityNotFound then none else some err
          | .ok feed =>
            match parseFeed env w feed.Link with
            | (_, _, some _) => none
            | (w1, items, none) =>
              match findLastIndex env w1 items with
              | .error err => some err
              | .ok _ => none := by
  unfold ProcessTask
  cases payload with
  | none => rfl
  | some p =>
    simp only
    cases env.uuidParse p with
    | none => rfl
    | some id =>
      simp only
      cases env.FindByID w id with
      | error err => simp only; split_ifs <;> rfl
      | ok feed =>
        simp only
        rcases parseFeed env w feed.Link with ⟨w1, items, _ | err⟩
        · simp only [processParsed]
          cases findLastIndex env w1 items with
          | error err => rfl
          | ok i =>
            simp only
            cases trimItems items i with
            | none => rfl
            | some new => exact processLoop_ret env feed new w1
        · rfl

/-- No outcome of `Save` changes what `ProcessTask` returns. -/
theorem ProcessTask_ret_save (env : Env) (save : World → Article → Option Err) (w : World)
    (payload : Option String) :
    (ProcessTask { env with Save := save } w payload).2 = (ProcessTask env w payload).2 := by
  rw [ProcessTask_ret, ProcessTask_ret]
  have hp : ∀ link, parseFeed { env with Save := save } w link = parseFeed env w link :=
    fun link => parseFeed_congr env _ w link rfl rfl rfl
  simp only [hp]
  rfl

/-! ## C4: cursor resolution -/

/-- C4. Cursor resolution. Let `found` be what the store yields for the candidate links. If the
first yielded article whose link is a candidate link is `a`, and the lookup position of its
link is that of `e` in `items = pre ++ e :: post` (the last candidate carrying that link), then
`findLastIndex` returns that position and `ProcessTask` goes on to process exactly `post`,
in order (nothing at all, returning `nil`, when `post` is empty). If no yielded article has a
candidate link, `findLastIndex` returns `-1` and every candidate is processed. Absent
cancellation the pages requested are those of `post`, respectively of all candidates. -/
theorem C4_cursor_resolution (env : Env) (feed : Feed) (w : World) (items : List Item)
    (found : List Article)
    (hfind : env.FindIter w (items.map (fun item => item.Link)) items.length = .ok found) :
    (∀ (a : Article) (pre : List Item) (e : Item) (post : List Item),
      found.find? (fun a => decide (a.Link ∈ items.map (fun item => item.Link))) = some a →
      items = pre ++ e :: post → e.Link = a.Link → (∀ y ∈ post, y.Link ≠ a.Link) →
      findLastIndex env w items = .ok (pre.length : Int) ∧
      processParsed env feed w items = processLoop env feed post w ∧
      (post = [] → processParsed env feed w items = (w, none)) ∧
      ((∀ w0, env.ctxDone w0 = false) →
        (processParsed env feed w items).1.fetched =
          w.fetched ++ post.map (fun item => item.Link))) ∧
    (found.find? (fun a => decide (a.Link ∈ items.map (fun item => item.Link))) = none →
      findLastIndex env w items = .ok (-1) ∧
      processParsed env feed w items = processLoop env feed items w ∧
      ((∀ w0, env.ctxDone w0 = false) →
        (processParsed env feed w items).1.fetched =
          w.fetched ++ items.map (fun item => item.Link))) := by
  have hfl := findLastIndex_eq env w items found hfind
  constructor
  · intro a pre e post ha hd he hp
    rw [ha] at hfl
    subst hd
    simp only [buildSeen_last a.Link pre e post 0 _ he hp, Nat.zero_add] at hfl
    have hpp := processParsed_split env feed w pre e post hfl
    refine ⟨hfl, hpp, ?_, ?_⟩
    · intro hnil
      rw [hpp, hnil]
      rfl
    · intro hnc
      rw [hpp, processLoop_fetched env feed hnc]
  · intro hn
    rw [hn] at hfl
    have hpp : processParsed env feed w items = processLoop env feed items w := by
      unfold processParsed
      rw [hfl]
      simp [trimItems]
    refine ⟨hfl, hpp, ?_⟩
    intro hnc
    rw [hpp, processLoop_fetched env feed hnc]

/-- Witness for C4: three candidates `a`, `b`, `c`; the store yields the articles of `b` and
`a`, in that order, so only `c` is processed. -/
theorem C4_cursor_resolution_witness :
    findLastIndex (sampleEnv (.ok []) (fun _ _ _ => .ok [sampleArticle 1 "https://x/b" 2,
        sampleArticle 0 "https://x/a" 1]) (fun _ _ => none) "en") emptyWorld
      [sampleItem "https://x/a" 1, sampleItem "https://x/b" 2, sampleItem "https://x/c" 3]
      = .ok 1 ∧
    (processParsed (sampleEnv (.ok []) (fun _ _ _ => .ok [sampleArticle 1 "https://x/b" 2,
        sampleArticle 0 "https://x/a" 1]) (fun _ _ => none) "en") sampleFeed emptyWorld
      [sampleItem "https://x/a" 1, sampleItem "https://x/b" 2,
        sampleItem "https://x/c" 3]).1.fetched = ["https://x/c"] := by
  have h := (C4_cursor_resolution
    (sampleEnv (.ok []) (fun _ _ _ => .ok [sampleArticle 1 "https://x/b" 2,
        sampleArticle 0 "https://x/a" 1]) (fun _ _ => none) "en") sampleFeed emptyWorld
    [sampleItem "https://x/a" 1, sampleItem "https://x/b" 2, sampleItem "https://x/c" 3]
    [sampleArticle 1 "https://x/b" 2, sampleArticle 0 "https://x/a" 1] rfl).1
    (sampleArticle 1 "https://x/b" 2) [sampleItem "https://x/a" 1] (sampleItem "https://x/b" 2)
    [sampleItem "https://x/c" 3] (by decide) rfl rfl (by decide)
  exact ⟨h.1, h.2.2.2 (fun _ => rfl)⟩

/-! ## C5: feed fetch or parse failure -/

/-- C5, as the code has it. Whenever `parseFeed` returns an error, of whatever kind,
`ProcessTask` returns `nil`: no entry is processed, nothing is saved or published, and the
failure is logged at error level unless it is a cancellation or deadline. -/
theorem C5_parse_failure_not_surfaced (env : Env) (w w1 : World) (p : String) (id : UUID)
    (feed : Feed) (items : List Item) (err : Err)
    (hid : env.uuidParse p = some id) (hfeed : env.FindByID w id = .ok feed)
    (hparse : parseFeed env w feed.Link = (w1, items, some err)) :
    (ProcessTask env w (some p)).2 = none ∧
    (ProcessTask env w (some p)).1.fetched = w.fetched ∧
    (ProcessTask env w (some p)).1.saveCalls = w.saveCalls ∧
    (ProcessTask env w (some p)).1.articles = w.articles ∧
    (ProcessTask env w (some p)).1.published = w.published ∧
    (ProcessTask env w (some p)).1.logs =
      if IsCanceledOrDeadline err then w1.logs
      else w1.logs ++ [(Level.error, "error due to parse feed")] := by
  obtain ⟨h1, h2, h3, h4⟩ := parseFeed_world env w feed.Link
  rw [hparse] at h1 h2 h3 h4
  simp only at h1 h2 h3 h4
  unfold ProcessTask
  simp only [hid, hfeed, hparse]
  cases hc : IsCanceledOrDeadline err <;> simp [logAt, h1, h2, h3, h4]

/-- Witness for C5: the feed parser fails with a plain error. -/
theorem C5_parse_failure_not_surfaced_witness :
    (ProcessTask (sampleEnv (.error .other) (fun _ _ _ => .ok []) (fun _ _ => none) "en")
      emptyWorld (some "7")).2 = none ∧
    (ProcessTask (sampleEnv (.error .other) (fun _ _ _ => .ok []) (fun _ _ => none) "en")
      emptyWorld (some "7")).1.logs = [(Level.error, "error due to parse feed")] := by
  have h := C5_parse_failure_not_surfaced
    (sampleEnv (.error .other) (fun _ _ _ => .ok []) (fun _ _ => none) "en")
    emptyWorld emptyWorld "7" 7 sampleFeed [] .other rfl rfl rfl
  exact ⟨h.1, h.2.2.2.2.2⟩

/-- C5 fails as stated: the feed parser fails with an error that is neither a cancellation nor
a deadline, and `ProcessTask` still returns `nil`. -/
theorem C5_counterexample :
    (parseFeed (sampleEnv (.error .other) (fun _ _ _ => .ok []) (fun _ _ => none) "en")
      emptyWorld sampleFeed.Link).2.2 = some Err.other ∧
    IsCanceledOrDeadline Err.other = false ∧
    (ProcessTask (sampleEnv (.error .other) (fun _ _ _ => .ok []) (fun _ _ => none) "en")
      emptyWorld (some "7")).2 = none := by
  decide

/-! ## C6: store failure on save -/

/-- C6, as the code has it. A failed `Save` is never surfaced: the article is neither stored
nor published, the failure is logged (at debug level for a duplicate key, at error level
otherwise, not at all for a cancellation or deadline), the loop returns `nil`, and the value
`ProcessTask` returns is the same whatever `Save` answers. -/
theorem C6_save_failure_not_surfaced (env : Env) (w : World) (article : Article) (err : Err)
    (h : env.Save w article = some err) :
    (saveArticle env w article).articles = w.articles ∧
    (saveArticle env w article).published = w.published ∧
    (saveArticle env w article).logs =
      (if IsCanceledOrDeadline err then w.logs
       else if err = .duplicateKey then
        w.logs ++ [(Level.debug, "error due to save article, duplicate key")]
       else w.logs ++ [(Level.error, "error due to save article")]) ∧
    (∀ feed items w0, (processLoop env feed items w0).2 = none) ∧
    (∀ save w0 payload,
      (ProcessTask { env with Save := save } w0 payload).2 = (ProcessTask env w0 payload).2) := by
  have hne : env.Save w article ≠ none := by rw [h]; simp
  refine ⟨(saveArticle_fail env w article hne).1, (saveArticle_fail env w article hne).2, ?_,
    fun feed items w0 => processLoop_ret env feed items w0,
    fun save w0 payload => ProcessTask_ret_save env save w0 payload⟩
  unfold saveArticle
  simp only [h, logAt]
  split_ifs <;> rfl

/-- Witness for C6: a store whose `Save` always fails with a plain error. -/
theorem C6_save_failure_not_surfaced_witness :
    (saveArticle (sampleEnv (.ok []) (fun _ _ _ => .ok []) (fun _ _ => some .other) "en")
      emptyWorld (sampleArticle 0 "https://x/a" 1)).articles = [] ∧
    (saveArticle (sampleEnv (.ok []) (fun _ _ _ => .ok []) (fun _ _ => some .other) "en")
      emptyWorld (sampleArticle 0 "https://x/a" 1)).logs =
        [(Level.error, "error due to save article")] := by
  have h := C6_save_failure_not_surfaced
    (sampleEnv (.ok []) (fun _ _ _ => .ok []) (fun _ _ => some .other) "en")
    emptyWorld (sampleArticle 0 "https://x/a" 1) .other rfl
  exact ⟨h.1, h.2.2.1⟩

/-- C6 fails as stated: `Save` fails with an error that is neither a duplicate key nor a
cancellation or deadline, on the one article of the run, and `ProcessTask` returns `nil`. -/
theorem C6_counterexample :
    (ProcessTask (sampleEnv (.ok [some (sampleItem "https://x/a" 1)]) (fun _ _ _ => .ok [])
      (fun _ _ => some .other) "en") emptyWorld (some "7")).1.saveCalls =
        [sampleArticle 0 "https://x/a" 1] ∧
    (ProcessTask (sampleEnv (.ok [some (sampleItem "https://x/a" 1)]) (fun _ _ _ => .ok [])
      (fun _ _ => some .other) "en") emptyWorld (some "7")).1.articles = [] ∧
    (ProcessTask (sampleEnv (.ok [some (sampleItem "https://x/a" 1)]) (fun _ _ _ => .ok [])
      (fun _ _ => some .other) "en") emptyWorld (some "7")).2 = none := by
  decide

/-! ## C7: duplicate save -/

/-- C7. Duplicate save. `saveArticle` publishes the article, once and alone, exactly when
`Save` succeeds; when `Save` reports a duplicate key nothing is published or stored, one debug
record is logged, and the run does not fail: the loop returns `nil`, and a store that answers
every `Save` with a duplicate key does not change what `ProcessTask` returns. -/
theorem C7_duplicate_save (env : Env) (w : World) (article : Article) :
    (env.Save w article = none →
      (saveArticle env w article).published = w.published ++ [[article]] ∧
      (saveArticle env w article).articles = w.articles ++ [article]) ∧
    (env.Save w article ≠ none → (saveArticle env w article).published = w.published) ∧
    (env.Save w article = some .duplicateKey →
      (saveArticle env w article).published = w.published ∧
      (saveArticle env w article).articles = w.articles ∧
      (saveArticle env w article).logs =
        w.logs ++ [(Level.debug, "error due to save article, duplicate key")]) ∧
    (∀ feed items w0, (processLoop env feed items w0).2 = none) ∧
    (∀ w0 payload,
      (ProcessTask { env with Save := fun _ _ => some .duplicateKey } w0 payload).2 =
        (ProcessTask env w0 payload).2) := by
  refine ⟨fun h => ⟨(saveArticle_ok env w article h).2, (saveArticle_ok env w article h).1⟩,
    fun h => (saveArticle_fail env w article h).2, ?_,
    fun feed items w0 => processLoop_ret env feed items w0,
    fun w0 payload => ProcessTask_ret_save env _ w0 payload⟩
  intro h
  have hne : env.Save w article ≠ none := by rw [h]; simp
  refine ⟨(saveArticle_fail env w article hne).2, (saveArticle_fail env w article hne).1, ?_⟩
  unfold saveArticle
  simp [h, logAt, IsCanceledOrDeadline]

/-- Witness for C7: one successful save, one save answered with a duplicate key. -/
theorem C7_duplicate_save_witness :
    (saveArticle (sampleEnv (.ok []) (fun _ _ _ => .ok []) (fun _ _ => none) "en")
      emptyWorld (sampleArticle 0 "https://x/a" 1)).published =
        [[sampleArticle 0 "https://x/a" 1]] ∧
    (saveArticle (sampleEnv (.ok []) (fun _ _ _ => .ok []) (fun _ _ => some .duplicateKey) "en")
      emptyWorld (sampleArticle 0 "https://x/a" 1)).published = [] :=
  ⟨((C7_duplicate_save (sampleEnv (.ok []) (fun _ _ _ => .ok []) (fun _ _ => none) "en")
      emptyWorld (sampleArticle 0 "https://x/a" 1)).1 rfl).1,
   ((C7_duplicate_save
      (sampleEnv (.ok []) (fun _ _ _ => .ok []) (fun _ _ => some .duplicateKey) "en")
      emptyWorld (sampleArticle 0 "https://x/a" 1)).2.2.1 rfl).1⟩

/-! ## C8: per-item isolation -/

theorem sortSlice_itemBefore_sorted (xs : List Item) :
    (sortSlice itemBefore xs).Pairwise
      (fun a b => derefTime a.PublishedParsed ≤ derefTime b.PublishedParsed) := by
  unfold sortSlice
  haveI : IsTotal Item (fun a b => itemBefore b a = false) :=
    ⟨fun a b => by
      simp only [itemBefore, decide_eq_false_iff_not, not_lt]
      exact le_total _ _⟩
  haveI : IsTrans Item (fun a b => itemBefore b a = false) :=
    ⟨fun a b c h1 h2 => by
      simp only [itemBefore, decide_eq_false_iff_not, not_lt] at h1 h2 ⊢
      exact le_trans h1 h2⟩
  have h := List.sorted_insertionSort (fun a b : Item => itemBefore b a = false) xs
  refine List.Pairwise.imp ?_ h
  intro a b hab
  simpa only [itemBefore, decide_eq_false_iff_not, not_lt] using hab

theorem parseFeed_sorted (env : Env) (w : World) (link : String) :
    (parseFeed env w link).2.1.Pairwise
      (fun a b => derefTime a.PublishedParsed ≤ derefTime b.PublishedParsed) := by
  unfold parseFeed
  cases env.ParseURLWithContext w link with
  | error err => exact List.Pairwise.nil
  | ok raw => exact sortSlice_itemBefore_sorted _

theorem trimItems_sublist (items : List Item) (lastIndex : Int) :
    ((trimItems items lastIndex).getD []).Sublist items := by
  unfold trimItems
  split_ifs
  · exact List.drop_sublist _ _
  · exact List.nil_sublist _
  · exact List.Sublist.refl _

/-- C8. Per-item isolation. In a run that reaches the loop (feed found, feed parsed, cursor
resolved) and is not cancelled, whatever the page requests, the title and language resolution
and `Save` do for each entry: the new entries are in ascending publish-time order,
`ProcessTask` is the sequential loop over them, `processItem` is invoked on every one of them
in that order (each requests its page), and `ProcessTask` returns `nil`. -/
theorem C8_per_item_isolation (env : Env) (w w1 : World) (p : String) (id : UUID)
    (feed : Feed) (items : List Item) (lastIndex : Int)
    (hid : env.uuidParse p = some id) (hfeed : env.FindByID w id = .ok feed)
    (hparse : parseFeed env w feed.Link = (w1, items, none))
    (hcur : findLastIndex env w1 items = .ok lastIndex)
    (hnc : ∀ w0, env.ctxDone w0 = false) :
    ((trimItems items lastIndex).getD []).Pairwise
      (fun a b => derefTime a.PublishedParsed ≤ derefTime b.PublishedParsed) ∧
    ProcessTask env w (some p) =
      processLoop env feed ((trimItems items lastIndex).getD []) w1 ∧
    (ProcessTask env w (some p)).1.fetched =
      w.fetched ++ ((trimItems items lastIndex).getD []).map (fun item => item.Link) ∧
    (ProcessTask env w (some p)).2 = none := by
  have hsorted : items.Pairwise
      (fun a b => derefTime a.PublishedParsed ≤ derefTime b.PublishedParsed) := by
    have h := parseFeed_sorted env w feed.Link
    rw [hparse] at h
    exact h
  have hw := (parseFeed_world env w feed.Link).1
  rw [hparse] at hw
  simp only at hw
  have heq : ProcessTask env w (some p) =
      processLoop env feed ((trimItems items lastIndex).getD []) w1 := by
    unfold ProcessTask
    simp only [hid, hfeed, hparse, processParsed, hcur]
    cases trimItems items lastIndex with
    | none => rfl
    | some new => rfl
  refine ⟨hsorted.sublist (trimItems_sublist items lastIndex), heq, ?_, ?_⟩
  · rw [heq, processLoop_fetched env feed hnc, hw]
  · rw [heq]
    exact processLoop_ret env feed _ _

/-- Witness for C8: of three new entries the second cannot be saved (the store fails on it);
the third is processed all the same and the run returns `nil`. -/
theorem C8_per_item_isolation_witness :
    (ProcessTask (sampleEnv
      (.ok [some (sampleItem "https://x/c" 3), some (sampleItem "https://x/a" 1),
        some (sampleItem "https://x/b" 2)])
      (fun _ _ _ => .ok []) (fun _ a => if a.Link = "https://x/b" then some .other else none)
      "en") emptyWorld (some "7")).1.fetched = ["https://x/a", "https://x/b", "https://x/c"] ∧
    (ProcessTask (sampleEnv
      (.ok [some (sampleItem "https://x/c" 3), some (sampleItem "https://x/a" 1),
        some (sampleItem "https://x/b" 2)])
      (fun _ _ _ => .ok []) (fun _ a => if a.Link = "https://x/b" then some .other else none)
      "en") emptyWorld (some "7")).2 = none := by
  have h := C8_per_item_isolation (sampleEnv
      (.ok [some (sampleItem "https://x/c" 3), some (sampleItem "https://x/a" 1),
        some (sampleItem "https://x/b" 2)])
      (fun _ _ _ => .ok []) (fun _ a => if a.Link = "https://x/b" then some .other else none)
      "en") emptyWorld (logAt emptyWorld .debug "feed link parsed") "7" 7 sampleFeed
      [sampleItem "https://x/a" 1, sampleItem "https://x/b" 2, sampleItem "https://x/c" 3]
      (-1) rfl rfl (by decide) rfl (fun _ => rfl)
  exact ⟨h.2.2.1, h.2.2.2⟩

/-! ## C9: title invariant -/

/-- C9. Title invariant. `processItem` calls `Save` at most once, and only with an article
whose title is not empty; when the stripped entry title, the stripped page title and the
derived short description are all empty, the entry is skipped with a warning: nothing is
handed to `Save`, stored or published. -/
theorem C9_title_invariant (env : Env) (w : World) (feed : Feed) (item : Item) :
    ((processItem env w feed item).saveCalls = w.saveCalls ∨
      ∃ a, a.Title ≠ "" ∧ (processItem env w feed item).saveCalls = w.saveCalls ++ [a]) ∧
    (∀ og, openGraphFetch env w item.Link = .ok og →
      env.StripHTMLTags item.Title = "" → env.StripHTMLTags og.Title = "" →
      deriveShortDesc env og (resolveDescription item og) = "" →
      (processItem env w feed item).saveCalls = w.saveCalls ∧
      (processItem env w feed item).articles = w.articles ∧
      (processItem env w feed item).published = w.published ∧
      (Level.warn, "article title not found") ∈ (processItem env w feed item).logs) := by
  constructor
  · rcases (processItem_cases env w feed item).2 with h | ⟨a, _, _, _, ht, heq⟩
    · exact Or.inl h.1
    · refine Or.inr ⟨a, ht, ?_⟩
      rw [heq, saveArticle_saveCalls, (parseOpengraphMeta_world env w item.Link).2.2.1]
  · intro og hog h1 h2 h3
    obtain ⟨_, ha, hs, hp⟩ := parseOpengraphMeta_world env w item.Link
    have hr := parseOpengraphMeta_result env w item.Link
    unfold processItem
    rcases hpm : parseOpengraphMeta env w item.Link with ⟨w1, r⟩
    rw [hpm] at ha hs hp hr
    simp only at ha hs hp hr
    rw [hog] at hr
    subst hr
    have htitle : resolveTitle env item.Title og
        (deriveShortDesc env og (resolveDescription item og)) = "" := by
      unfold resolveTitle
      simp only [h1, h2, h3, if_true]
      decide
    simp only [htitle, if_true, logAt, ha, hs, hp]
    simp

/-- Witness for C9: an entry without a title whose page has neither title nor description. -/
theorem C9_title_invariant_witness :
    (processItem (sampleEnv (.ok []) (fun _ _ _ => .ok []) (fun _ _ => none) "en") emptyWorld
      sampleFeed ⟨"", "", "", "https://x/a", [], "", some 1, none, [], []⟩).saveCalls = [] ∧
    (processItem (sampleEnv (.ok []) (fun _ _ _ => .ok []) (fun _ _ => none) "en") emptyWorld
      sampleFeed ⟨"", "", "", "https://x/a", [], "", some 1, none, [], []⟩).articles = [] :=
  have h := (C9_title_invariant
    (sampleEnv (.ok []) (fun _ _ _ => .ok []) (fun _ _ => none) "en") emptyWorld
    sampleFeed ⟨"", "", "", "https://x/a", [], "", some 1, none, [], []⟩).2
    ⟨"", "", [], [], []⟩ rfl rfl rfl (by decide)
  ⟨h.1, h.2.1⟩

/-! ## C10: language invariant -/

theorem resolveLang_some (env : Env) (feed : Feed) (text l : String)
    (h : resolveLang env feed text = some l) :
    (l = env.DetectLang text ∧ l ≠ "" ∧ l ≠ "xx") ∨
    ((env.DetectLang text = "" ∨ env.DetectLang text = "xx") ∧ feed.Languages.head? = some l) := by
  unfold resolveLang at h
  simp only at h
  split_ifs at h with hd
  · right
    refine ⟨hd, ?_⟩
    cases hl : feed.Languages with
    | nil => rw [hl] at h; simp at h
    | cons x rest =>
      rw [hl] at h
      simp only [Option.some.injEq] at h
      simp [h]
  · left
    simp only [Option.some.injEq] at h
    subst h
    exact ⟨rfl, fun h1 => hd (Or.inl h1), fun h2 => hd (Or.inr h2)⟩

/-- The language of the article `processItem` hands to `Save` is an answer of lines 137-144. -/
theorem processItem_lang (env : Env) (w : World) (feed : Feed) (item : Item) :
    (processItem env w feed item).saveCalls = w.saveCalls ∨
    ∃ a text, resolveLang env feed text = some a.Lang ∧
      (processItem env w feed item).saveCalls = w.saveCalls ++ [a] := by
  obtain ⟨_, _, hs, _⟩ := parseOpengraphMeta_world env w item.Link
  unfold processItem
  rcases hpm : parseOpengraphMeta env w item.Link with ⟨w1, r⟩
  rw [hpm] at hs
  simp only at hs
  cases r with
  | error err =>
    simp only
    split_ifs <;> simp [logAt, hs]
  | ok og =>
    simp only
    split_ifs with ht
    · simp [logAt, hs]
    · split
      · simp [logAt, hs]
      · rename_i lang hl
        exact Or.inr ⟨_, _, hl, by rw [saveArticle_saveCalls, hs]⟩

/-- The language of the article `processItem` hands to `Save` is the answer of lines 137-144
on the text built from the entry and its fetched page. -/
theorem processItem_saved_lang (env : Env) (w : World) (feed : Feed) (item : Item)
    (a : Article) (h : (processItem env w feed item).saveCalls = w.saveCalls ++ [a]) :
    ∃ og, openGraphFetch env w item.Link = .ok og ∧
      resolveLang env feed (detectionText env item og) = some a.Lang := by
  obtain ⟨_, _, hs, _⟩ := parseOpengraphMeta_world env w item.Link
  cases hog : openGraphFetch env w item.Link with
  | error err =>
    exfalso
    have hr := parseOpengraphMeta_result env w item.Link
    unfold processItem at h
    rcases hpm : parseOpengraphMeta env w item.Link with ⟨w1, r⟩
    rw [hpm] at hr hs h
    simp only at hr hs
    rw [hog] at hr
    subst hr
    simp only at h
    split_ifs at h <;> simp [logAt, hs] at h
  | ok og =>
    rw [processItem_of_fetch env w feed item og hog] at h
    split_ifs at h with ht
    · simp [logAt, hs] at h
    · split at h
      · simp [logAt, hs] at h
      · rename_i lang hl
        rw [saveArticle_saveCalls, hs] at h
        have ha := List.append_cancel_left h
        simp only [List.cons.injEq, and_true] at ha
        refine ⟨og, rfl, ?_⟩
        rw [← ha]
        exact hl

/-- C10, as the code has it. `processItem` calls `Save` at most once. The article it hands
over was built on a fetched page, and its language is decided by detection on the text made
of the entry's resolved title, short description and description: it is the detected code
when that is neither empty nor "xx", and otherwise the feed's first declared language as it
is declared; so the language is not empty whenever the feed's first declared language is not
empty. On a fetched page with a resolved title: a detected code that is neither empty nor
"xx" is the language of the article handed to `Save`; when detection is empty or "xx" and the
feed declares languages, the article carries the first of them; when it declares none, the
entry is skipped, and nothing is handed to `Save`, stored or published. -/
theorem C10_language_invariant (env : Env) (w : World) (feed : Feed) (item : Item) :
    ((processItem env w feed item).saveCalls = w.saveCalls ∨
      ∃ a og, openGraphFetch env w item.Link = .ok og ∧
        (processItem env w feed item).saveCalls = w.saveCalls ++ [a] ∧
        ((a.Lang = env.DetectLang (detectionText env item og) ∧ a.Lang ≠ "" ∧ a.Lang ≠ "xx") ∨
         ((env.DetectLang (detectionText env item og) = "" ∨
            env.DetectLang (detectionText env item og) = "xx") ∧
           feed.Languages.head? = some a.Lang)) ∧
        (feed.Languages.head? ≠ some "" → a.Lang ≠ "")) ∧
    (∀ og, openGraphFetch env w item.Link = .ok og →
      resolveTitle env item.Title og (deriveShortDesc env og (resolveDescription item og)) ≠ "" →
      env.DetectLang (detectionText env item og) ≠ "" →
      env.DetectLang (detectionText env item og) ≠ "xx" →
      ∃ a, a.Lang = env.DetectLang (detectionText env item og) ∧
        (processItem env w feed item).saveCalls = w.saveCalls ++ [a]) ∧
    (∀ og l rest, openGraphFetch env w item.Link = .ok og →
      resolveTitle env item.Title og (deriveShortDesc env og (resolveDescription item og)) ≠ "" →
      (env.DetectLang (detectionText env item og) = "" ∨
        env.DetectLang (detectionText env item og) = "xx") →
      feed.Languages = l :: rest →
      ∃ a, a.Lang = l ∧ (processItem env w feed item).saveCalls = w.saveCalls ++ [a]) ∧
    (∀ og, openGraphFetch env w item.Link = .ok og →
      (env.DetectLang (detectionText env item og) = "" ∨
        env.DetectLang (detectionText env item og) = "xx") →
      feed.Languages = [] →
      (processItem env w feed item).saveCalls = w.saveCalls ∧
      (processItem env w feed item).articles = w.articles ∧
      (processItem env w feed item).published = w.published) := by
  obtain ⟨_, ha, hs, hp⟩ := parseOpengraphMeta_world env w item.Link
  refine ⟨?_, ?_, ?_, ?_⟩
  · rcases (processItem_cases env w feed item).2 with hskip | ⟨a, _, _, _, _, heq⟩
    · exact Or.inl hskip.1
    · have hsc : (processItem env w feed item).saveCalls = w.saveCalls ++ [a] := by
        rw [heq, saveArticle_saveCalls, hs]
      obtain ⟨og, hog, hl⟩ := processItem_saved_lang env w feed item a hsc
      have hcases := resolveLang_some env feed (detectionText env item og) a.Lang hl
      refine Or.inr ⟨a, og, hog, hsc, hcases, ?_⟩
      intro hne hempty
      rcases hcases with h | h
      · exact h.2.1 hempty
      · rw [hempty] at h
        exact hne h.2
  · intro og hog ht hd1 hd2
    rw [processItem_of_fetch env w feed item og hog, if_neg ht]
    have hrl : resolveLang env feed (detectionText env item og) =
        some (env.DetectLang (detectionText env item og)) := by
      unfold resolveLang
      have hnot : ¬ (env.DetectLang (detectionText env item og) = "" ∨
          env.DetectLang (detectionText env item og) = "xx") := by
        rintro (h | h)
        · exact hd1 h
        · exact hd2 h
      simp only [if_neg hnot]
    show ∃ a, a.Lang = env.DetectLang (detectionText env item og) ∧
      (match resolveLang env feed (detectionText env item og) with
        | none => logAt (parseOpengraphMeta env w item.Link).1 .warn
            "feed item's lang not detected"
        | some lang =>
          saveArticle env (parseOpengraphMeta env w item.Link).1
            (buildArticle env (parseOpengraphMeta env w item.Link).1 feed
              { item with
                Description := resolveDescription item og
                Title := resolveTitle env item.Title og
                  (deriveShortDesc env og (resolveDescription item og)) }
              og lang (deriveShortDesc env og (resolveDescription item og)))).saveCalls =
        w.saveCalls ++ [a]
    rw [hrl]
    exact ⟨_, rfl, by rw [saveArticle_saveCalls, hs]⟩
  · intro og l rest hog ht hdet hlangs
    rw [processItem_of_fetch env w feed item og hog, if_neg ht]
    have hrl : resolveLang env feed (detectionText env item og) = some l := by
      unfold resolveLang
      simp only [if_pos hdet, hlangs]
    show ∃ a, a.Lang = l ∧
      (match resolveLang env feed (detectionText env item og) with
        | none => logAt (parseOpengraphMeta env w item.Link).1 .warn
            "feed item's lang not detected"
        | some lang =>
          saveArticle env (parseOpengraphMeta env w item.Link).1
            (buildArticle env (parseOpengraphMeta env w item.Link).1 feed
              { item with
                Description := resolveDescription item og
                Title := resolveTitle env item.Title og
                  (deriveShortDesc env og (resolveDescription item og)) }
              og lang (deriveShortDesc env og (resolveDescription item og)))).saveCalls =
        w.saveCalls ++ [a]
    rw [hrl]
    exact ⟨_, rfl, by rw [saveArticle_saveCalls, hs]⟩
  · intro og hog hdet hlangs
    have hrl : resolveLang env feed (detectionText env item og) = none := by
      unfold resolveLang
      simp only [if_pos hdet, hlangs]
    have hpi := processItem_of_fetch env w feed item og hog
    have hpi2 : processItem env w feed item =
        if resolveTitle env item.Title og
            (deriveShortDesc env og (resolveDescription item og)) = "" then
          logAt (parseOpengraphMeta env w item.Link).1 .warn "article title not found"
        else
          match resolveLang env feed (detectionText env item og) with
          | none => logAt (parseOpengraphMeta env w item.Link).1 .warn
              "feed item's lang not detected"
          | some lang =>
            saveArticle env (parseOpengraphMeta env w item.Link).1
              (buildArticle env (parseOpengraphMeta env w item.Link).1 feed
                { item with
                  Description := resolveDescription item og
                  Title := resolveTitle env item.Title og
                    (deriveShortDesc env og (resolveDescription item og)) }
                og lang (deriveShortDesc env og (resolveDescription item og))) := hpi
    rw [hpi2, hrl]
    split_ifs <;> exact ⟨hs, ha, hp⟩

/-- Witness for C10: from a feed declaring `["fr"]`, a detected "en" is stored as it is and
an indeterminate detection gives an article with language "fr"; from a feed declaring no
language, an indeterminate detection makes the entry be skipped. -/
theorem C10_language_invariant_witness :
    (∃ a : Article, a.Lang = "en" ∧
      (processItem (sampleEnv (.ok []) (fun _ _ _ => .ok []) (fun _ _ => none) "en") emptyWorld
        ⟨7, "https://feed.example/rss", ["fr"]⟩ (sampleItem "https://x/a" 1)).saveCalls =
        emptyWorld.saveCalls ++ [a]) ∧
    (∃ a : Article, a.Lang = "fr" ∧
      (processItem (sampleEnv (.ok []) (fun _ _ _ => .ok []) (fun _ _ => none) "xx") emptyWorld
        ⟨7, "https://feed.example/rss", ["fr"]⟩ (sampleItem "https://x/a" 1)).saveCalls =
        emptyWorld.saveCalls ++ [a]) ∧
    (processItem (sampleEnv (.ok []) (fun _ _ _ => .ok []) (fun _ _ => none) "xx") emptyWorld
      ⟨7, "https://feed.example/rss", []⟩ (sampleItem "https://x/a" 1)).saveCalls = [] :=
  ⟨(C10_language_invariant
      (sampleEnv (.ok []) (fun _ _ _ => .ok []) (fun _ _ => none) "en") emptyWorld
      ⟨7, "https://feed.example/rss", ["fr"]⟩ (sampleItem "https://x/a" 1)).2.1
      ⟨"", "", [], [], []⟩ rfl (by decide) (by decide) (by decide),
   (C10_language_invariant
      (sampleEnv (.ok []) (fun _ _ _ => .ok []) (fun _ _ => none) "xx") emptyWorld
      ⟨7, "https://feed.example/rss", ["fr"]⟩ (sampleItem "https://x/a" 1)).2.2.1
      ⟨"", "", [], [], []⟩ "fr" [] rfl (by decide) (Or.inr rfl) rfl,
   ((C10_language_invariant
      (sampleEnv (.ok []) (fun _ _ _ => .ok []) (fun _ _ => none) "xx") emptyWorld
      ⟨7, "https://feed.example/rss", []⟩ (sampleItem "https://x/a" 1)).2.2.2
      ⟨"", "", [], [], []⟩ rfl (Or.inr rfl) rfl).1⟩

/-- C10 fails as stated: detection is indeterminate and the feed's first declared language is
the empty string; the entry is not skipped and the article handed to `Save`, and stored, has
an empty language. -/
theorem C10_counterexample :
    (processItem (sampleEnv (.ok []) (fun _ _ _ => .ok []) (fun _ _ => none) "xx") emptyWorld
      ⟨7, "https://feed.example/rss", [""]⟩ (sampleItem "https://x/a" 1)).saveCalls =
        [⟨0, 7, "", "Title of https://x/a", "https://x/a", 1, none, none, none, none, none⟩] ∧
    (processItem (sampleEnv (.ok []) (fun _ _ _ => .ok []) (fun _ _ => none) "xx") emptyWorld
      ⟨7, "https://feed.example/rss", [""]⟩ (sampleItem "https://x/a" 1)).articles.map
        (fun a => a.Lang) = [""] := by
  decide

/-! ## C2: malformed entry link -/

/-- C2 at a failing input. The feed document has a valid entry followed by an entry with no
link, identifier or alternate link. `parseFeed` drops the second entry but returns the error
of its link check along with the remaining entry, so `ProcessTask` logs a feed parse error and
processes nothing. With the same two entries in the other order `parseFeed` returns no error
and the valid entry is processed and saved. -/
theorem C2_malformed_last_entry_aborts :
    (parseFeed (sampleEnv (.ok [some (sampleItem "https://x/a" 1), some (sampleItem "" 2)])
      (fun _ _ _ => .ok []) (fun _ _ => none) "en") emptyWorld sampleFeed.Link).2 =
        ([sampleItem "https://x/a" 1], some Err.invalidURI) ∧
    ProcessTask (sampleEnv (.ok [some (sampleItem "https://x/a" 1), some (sampleItem "" 2)])
      (fun _ _ _ => .ok []) (fun _ _ => none) "en") emptyWorld (some "7") =
        (⟨[], [], [], [], [(Level.debug, "feed link parsed"),
          (Level.error, "error due to parse feed")]⟩, none) ∧
    (parseFeed (sampleEnv (.ok [some (sampleItem "" 2), some (sampleItem "https://x/a" 1)])
      (fun _ _ _ => .ok []) (fun _ _ => none) "en") emptyWorld sampleFeed.Link).2 =
        ([sampleItem "https://x/a" 1], none) ∧
    (ProcessTask (sampleEnv (.ok [some (sampleItem "" 2), some (sampleItem "https://x/a" 1)])
      (fun _ _ _ => .ok []) (fun _ _ => none) "en") emptyWorld (some "7")).1.articles =
        [sampleArticle 0 "https://x/a" 1] := by
  decide

/-! ## C1: monotonic resumption -/

theorem ProcessTask_eq_processParsed (env : Env) (w w1 : World) (p : String) (id : UUID)
    (feed : Feed) (items : List Item)
    (hid : env.uuidParse p = some id) (hfeed : env.FindByID w id = .ok feed)
    (hparse : parseFeed env w feed.Link = (w1, items, none)) :
    ProcessTask env w (some p) = processParsed env feed w1 items := by
  unfold ProcessTask
  simp only [hid, hfeed, hparse]

/-- A loop in which every entry is enriched successfully, over entries with pairwise distinct
links none of which is stored, on a store that accepts new links: every entry is saved and
published, in order. -/
theorem processLoop_saves_all (env : Env) (feed : Feed)
    (hnc : ∀ w, env.ctxDone w = false)
    (hsave : ∀ w a, (∀ b ∈ w.articles, b.Link ≠ a.Link) → env.Save w a = none) :
    ∀ (new : List Item) (w : World),
      (∀ item ∈ new, ∀ w0, (processItem env w0 feed item).saveCalls ≠ w0.saveCalls) →
      (new.map (fun e => e.Link)).Nodup →
      (∀ b ∈ w.articles, ∀ item ∈ new, b.Link ≠ item.Link) →
      ∃ added : List Article,
        added.map (fun a => (a.Link, a.PubDate)) =
          new.map (fun e => (e.Link, derefTime e.PublishedParsed)) ∧
        (∀ a ∈ added, a.SourceID = feed.ID ∧ a.Title ≠ "") ∧
        (processLoop env feed new w).1.articles = w.articles ++ added ∧
        (processLoop env feed new w).1.saveCalls = w.saveCalls ++ added ∧
        (processLoop env feed new w).1.published = w.published ++ added.map (fun a => [a])
  | [], w, _, _, _ => ⟨[], rfl, by simp, by simp [processLoop], by simp [processLoop],
      by simp [processLoop]⟩
  | item :: rest, w, henrich, hnodup, hfresh => by
    rcases (processItem_cases env w feed item).2 with
      hskip | ⟨a, hlink, hdate, hsrc, htitle, heq⟩
    · exact absurd hskip.1 (henrich item (List.mem_cons_self _ _) w)
    · obtain ⟨_, ha1, hs1, hp1⟩ := parseOpengraphMeta_world env w item.Link
      have hok : env.Save (parseOpengraphMeta env w item.Link).1 a = none := by
        apply hsave
        intro b hb
        rw [ha1] at hb
        rw [hlink]
        exact hfresh b hb item (List.mem_cons_self _ _)
      obtain ⟨hA, hP⟩ := saveArticle_ok env _ a hok
      have hS := saveArticle_saveCalls env (parseOpengraphMeta env w item.Link).1 a
      rw [← heq] at hA hP hS
      rw [ha1] at hA
      rw [hp1] at hP
      rw [hs1] at hS
      have hnodup2 : item.Link ∉ rest.map (fun e => e.Link) ∧
          (rest.map (fun e => e.Link)).Nodup := by
        simpa using hnodup
      obtain ⟨added, hmap, hprops, hArt, hSave, hPub⟩ :=
        processLoop_saves_all env feed hnc hsave rest (processItem env w feed item)
          (fun it hit => henrich it (List.mem_cons_of_mem _ hit)) hnodup2.2
          (by
            intro b hb it hit
            rw [hA] at hb
            rcases List.mem_append.mp hb with hb | hb
            · exact hfresh b hb it (List.mem_cons_of_mem _ hit)
            · rw [List.mem_singleton] at hb
              subst hb
              rw [hlink]
              intro h
              exact hnodup2.1 (List.mem_map.mpr ⟨it, hit, h.symm⟩))
      have hstep : processLoop env feed (item :: rest) w =
          processLoop env feed rest (processItem env w feed item) := by
        rw [processLoop, if_neg (by simp [hnc w])]
      refine ⟨a :: added, ?_, ?_, ?_, ?_, ?_⟩
      · simp [hmap, hlink, hdate]
      · intro b hb
        rcases List.mem_cons.mp hb with hb | hb
        · subst hb
          exact ⟨hsrc, htitle⟩
        · exact hprops b hb
      · rw [hstep, hArt, hA]
        simp
      · rw [hstep, hSave, hS]
        simp
      · rw [hstep, hPub, hP]
        simp

/-- The cursor of a feed `old ++ new` when the store holds exactly the articles of `old` and
yields them by descending publish time: the loop runs on `new`. -/
theorem processParsed_resume (env : Env) (feed : Feed) (w1 : World) (old new : List Item)
    (found : List Article)
    (hlinks : ((old ++ new).map (fun e => e.Link)).Nodup)
    (htimes : (old ++ new).Pairwise
      (fun a b => derefTime a.PublishedParsed < derefTime b.PublishedParsed))
    (hstore : w1.articles.map (fun a => (a.Link, a.PubDate)) =
      old.map (fun e => (e.Link, derefTime e.PublishedParsed)))
    (hfind : env.FindIter w1 ((old ++ new).map (fun e => e.Link)) (old ++ new).length =
      .ok found)
    (hperm : found.Perm w1.articles)
    (hdesc : found.Pairwise (fun a b => a.PubDate ≥ b.PubDate)) :
    processParsed env feed w1 (old ++ new) = processLoop env feed new w1 := by
  have hfl := findLastIndex_eq env w1 (old ++ new) found hfind
  rcases List.eq_nil_or_concat old with hold | ⟨pre, e, hold⟩
  · subst hold
    have hnil : w1.articles = [] := by simpa using hstore
    have hfound : found = [] := by
      rw [hnil] at hperm
      exact hperm.eq_nil
    rw [hfound] at hfl
    simp only [List.find?_nil] at hfl
    unfold processParsed
    rw [hfl]
    simp [trimItems]
  · rw [List.concat_eq_append] at hold
    subst hold
    have hitems : (pre ++ [e]) ++ new = pre ++ e :: new := by simp
    rw [hitems] at hfl hlinks htimes ⊢
    -- the stored article of the last old entry
    have hmem : (e.Link, derefTime e.PublishedParsed) ∈
        w1.articles.map (fun a => (a.Link, a.PubDate)) := by
      rw [hstore]
      exact List.mem_map.mpr ⟨e, by simp, rfl⟩
    obtain ⟨ae, hae, haeq⟩ := List.mem_map.mp hmem
    simp only [Prod.mk.injEq] at haeq
    have haef : ae ∈ found := hperm.mem_iff.mpr hae
    cases found with
    | nil => simp at haef
    | cons a0 frest =>
      have hge : a0.PubDate ≥ ae.PubDate := by
        rcases List.mem_cons.mp haef with h | h
        · rw [h]
        · exact (List.pairwise_cons.mp hdesc).1 ae h
      have ha0 : a0 ∈ w1.articles := hperm.mem_iff.mp (List.mem_cons_self _ _)
      have hmem0 : (a0.Link, a0.PubDate) ∈
          (pre ++ [e]).map (fun e => (e.Link, derefTime e.PublishedParsed)) := by
        rw [← hstore]
        exact List.mem_map.mpr ⟨a0, ha0, rfl⟩
      obtain ⟨x, hx, hxeq⟩ := List.mem_map.mp hmem0
      simp only [Prod.mk.injEq] at hxeq
      have hxe : x.Link = e.Link := by
        rcases List.mem_append.mp hx with hxp | hxl
        · exfalso
          have hlt : derefTime x.PublishedParsed < derefTime e.PublishedParsed :=
            (List.pairwise_append.mp htimes).2.2 x hxp e (List.mem_cons_self _ _)
          rw [hxeq.2, ← haeq.2] at hlt
          exact absurd hlt (not_lt.mpr hge)
        · rw [List.mem_singleton] at hxl
          rw [hxl]
      have hlink0 : e.Link = a0.Link := by rw [← hxe, hxeq.1]
      have hp : ∀ y ∈ new, y.Link ≠ a0.Link := by
        intro y hy hyl
        have hnd : (pre.map (fun e => e.Link) ++
            (e.Link :: new.map (fun e => e.Link))).Nodup := by
          simpa using hlinks
        have h3 := (List.nodup_cons.mp (List.nodup_append.mp hnd).2.1).1
        exact h3 (List.mem_map.mpr ⟨y, hy, by rw [hyl, hlink0]⟩)
      have hfind0 : (a0 :: frest).find?
          (fun a => decide (a.Link ∈ (pre ++ e :: new).map (fun item => item.Link))) =
            some a0 := by
        have : a0.Link ∈ (pre ++ e :: new).map (fun item => item.Link) :=
          List.mem_map.mpr ⟨e, by simp, hlink0⟩
        rw [List.find?_cons_of_pos]
        exact decide_eq_true this
      rw [hfind0] at hfl
      simp only [buildSeen_last a0.Link pre e new 0 _ hlink0 hp, Nat.zero_add] at hfl
      exact processParsed_split env feed w1 pre e new hfl

/-- C1. Monotonic resumption. Let the normalized candidates be `old ++ new`, with pairwise
distinct links and strictly increasing publish times. If the store holds exactly the articles
of `old` (one per entry, with its link and publish time), yields them for the cursor query by
descending publish time and accepts articles with a new link, every entry of `new` is enriched
successfully, and the run is not cancelled, then `ProcessTask` hands to `Save`, stores and
publishes exactly one article per entry of `new`, in that order (with the entry's link and
publish time, the feed as source and a non-empty title), and nothing else, and returns `nil`.
The spec's case is `old = e1..e6`, `new = e7..e10`. -/
theorem C1_monotonic_resumption (env : Env) (w w1 : World) (p : String) (id : UUID)
    (feed : Feed) (old new : List Item) (found : List Article)
    (hid : env.uuidParse p = some id) (hfeed : env.FindByID w id = .ok feed)
    (hparse : parseFeed env w feed.Link = (w1, old ++ new, none))
    (hlinks : ((old ++ new).map (fun e => e.Link)).Nodup)
    (htimes : (old ++ new).Pairwise
      (fun a b => derefTime a.PublishedParsed < derefTime b.PublishedParsed))
    (hstore : w.articles.map (fun a => (a.Link, a.PubDate)) =
      old.map (fun e => (e.Link, derefTime e.PublishedParsed)))
    (hfind : env.FindIter w1 ((old ++ new).map (fun e => e.Link)) (old ++ new).length =
      .ok found)
    (hperm : found.Perm w.articles)
    (hdesc : found.Pairwise (fun a b => a.PubDate ≥ b.PubDate))
    (henrich : ∀ item ∈ new, ∀ w0, (processItem env w0 feed item).saveCalls ≠ w0.saveCalls)
    (hsave : ∀ w0 a, (∀ b ∈ w0.articles, b.Link ≠ a.Link) → env.Save w0 a = none)
    (hnc : ∀ w0, env.ctxDone w0 = false) :
    ∃ added : List Article,
      added.map (fun a => (a.Link, a.PubDate)) =
        new.map (fun e => (e.Link, derefTime e.PublishedParsed)) ∧
      (∀ a ∈ added, a.SourceID = feed.ID ∧ a.Title ≠ "") ∧
      (ProcessTask env w (some p)).1.articles = w.articles ++ added ∧
      (ProcessTask env w (some p)).1.saveCalls = w.saveCalls ++ added ∧
      (ProcessTask env w (some p)).1.published = w.published ++ added.map (fun a => [a]) ∧
      (ProcessTask env w (some p)).2 = none := by
  obtain ⟨_, hw1a, hw1s, hw1p⟩ := parseFeed_world env w feed.Link
  rw [hparse] at hw1a hw1s hw1p
  simp only at hw1a hw1s hw1p
  have heq : ProcessTask env w (some p) = processLoop env feed new w1 := by
    rw [ProcessTask_eq_processParsed env w w1 p id feed (old ++ new) hid hfeed hparse]
    exact processParsed_resume env feed w1 old new found hlinks htimes
      (by rw [hw1a]; exact hstore) hfind (by rw [hw1a]; exact hperm) hdesc
  have hnd : (old.map (fun e => e.Link) ++ new.map (fun e => e.Link)).Nodup := by
    simpa using hlinks
  obtain ⟨_, hndnew, hdisj⟩ := List.nodup_append.mp hnd
  obtain ⟨added, hmap, hprops, hArt, hSave, hPub⟩ :=
    processLoop_saves_all env feed hnc hsave new w1 henrich hndnew
      (by
        intro b hb item hitem hbl
        rw [hw1a] at hb
        have hmem : (b.Link, b.PubDate) ∈
            old.map (fun e => (e.Link, derefTime e.PublishedParsed)) := by
          rw [← hstore]
          exact List.mem_map.mpr ⟨b, hb, rfl⟩
        obtain ⟨x, hx, hxeq⟩ := List.mem_map.mp hmem
        simp only [Prod.mk.injEq] at hxeq
        exact hdisj (List.mem_map.mpr ⟨x, hx, hxeq.1⟩)
          (List.mem_map.mpr ⟨item, hitem, hbl.symm⟩))
  refine ⟨added, hmap, hprops, ?_, ?_, ?_, ?_⟩
  · rw [heq, hArt, hw1a]
  · rw [heq, hSave, hw1s]
  · rw [heq, hPub, hw1p]
  · rw [heq]
    exact processLoop_ret env feed new w1

theorem sampleTitle_ne (link : String) : "Title of " ++ link ≠ "" := by
  intro h
  have hl := congrArg String.length h
  rw [String.length_append] at hl
  have h9 : "Title of ".length = 9 := by decide
  have h0 : "".length = 0 := by decide
  omega

/-- In the sample environments every sample entry is enriched successfully. -/
theorem sampleEnv_enriches (raw : Except Err (List (Option Item)))
    (find : World → List String → Nat → Except Err (List Article))
    (save : World → Article → Option Err) (feed : Feed) (link : String) (t : Time)
    (w0 : World) :
    (processItem (sampleEnv raw find save "en") w0 feed (sampleItem link t)).saveCalls ≠
      w0.saveCalls := by
  have ht := sampleTitle_ne link
  have hd : ("en" = "" ∨ "en" = "xx") = False := by decide
  have hh : HasPrefix "text/html; charset=utf-8" "text/html" = true := by decide
  simp [processItem, parseOpengraphMeta, openGraphFetch, sampleEnv, sampleItem, resolveTitle,
    resolveLang, resolveDescription, deriveShortDesc, logAt, saveArticle_saveCalls, ht, hd, hh]

theorem SaveArticle_fresh (store : List Article) (a : Article)
    (h : ∀ b ∈ store, b.Link ≠ a.Link) : SaveArticle store a = none := by
  unfold SaveArticle
  rw [if_neg]
  intro hmem
  obtain ⟨b, hb, hbl⟩ := List.mem_map.mp hmem
  exact h b hb hbl

/-- Witness for C1, the spec's case: the feed is `e1..e10`, the store holds the articles of
`e1..e6`; the run stores the articles of `e7..e10`, in that order, after them. -/
theorem C1_monotonic_resumption_witness :
    ∃ added : List Article,
      added.map (fun a => (a.Link, a.PubDate)) =
        [("https://x/7", 7), ("https://x/8", 8), ("https://x/9", 9), ("https://x/10", 10)] ∧
      (∀ a ∈ added, a.SourceID = sampleFeed.ID ∧ a.Title ≠ "") ∧
      (ProcessTask (storeEnv (tenEntries.map some)) sixStored (some "7")).1.articles =
        sixStored.articles ++ added ∧
      (ProcessTask (storeEnv (tenEntries.map some)) sixStored (some "7")).1.saveCalls =
        sixStored.saveCalls ++ added ∧
      (ProcessTask (storeEnv (tenEntries.map some)) sixStored (some "7")).1.published =
        sixStored.published ++ added.map (fun a => [a]) ∧
      (ProcessTask (storeEnv (tenEntries.map some)) sixStored (some "7")).2 = none :=
  C1_monotonic_resumption (storeEnv (tenEntries.map some)) sixStored
    (logAt sixStored .debug "feed link parsed") "7" 7 sampleFeed (tenEntries.take 6)
    (tenEntries.drop 6) sixStored.articles.reverse rfl rfl (by decide) (by decide) (by decide)
    (by decide) rfl (List.reverse_perm _) (by decide)
    (by
      intro item hitem w0
      simp only [tenEntries, List.drop, List.mem_cons, List.mem_singleton, List.not_mem_nil,
        or_false] at hitem
      rcases hitem with h | h | h | h <;> subst h <;> exact sampleEnv_enriches _ _ _ _ _ _ _)
    (fun w0 a h => SaveArticle_fresh w0.articles a h) (fun _ => rfl)

/-! ## C3: idempotence -/

theorem openGraphFetch_det (env : Env)
    (hpage : ∀ w0 w1 url, env.httpDo w0 url = env.httpDo w1 url) (w w0 : World) (url : String) :
    openGraphFetch env w url = openGraphFetch env w0 url := by
  unfold openGraphFetch
  rw [hpage w w0 url]

/-- With deterministic page requests, whether an entry is skipped does not depend on the
world. -/
theorem processItem_skip_det (env : Env) (feed : Feed) (item : Item)
    (hpage : ∀ w0 w1 url, env.httpDo w0 url = env.httpDo w1 url) (w w0 : World)
    (h : (processItem env w feed item).saveCalls = w.saveCalls) :
    (processItem env w0 feed item).saveCalls = w0.saveCalls := by
  have hr := parseOpengraphMeta_result env w item.Link
  have hr0 := parseOpengraphMeta_result env w0 item.Link
  rw [openGraphFetch_det env hpage w w0] at hr
  obtain ⟨_, _, hs, _⟩ := parseOpengraphMeta_world env w item.Link
  obtain ⟨_, _, hs0, _⟩ := parseOpengraphMeta_world env w0 item.Link
  unfold processItem at h ⊢
  rcases hpm : parseOpengraphMeta env w item.Link with ⟨w1, r⟩
  rcases hpm0 : parseOpengraphMeta env w0 item.Link with ⟨w01, r0⟩
  rw [hpm] at hr hs h
  rw [hpm0] at hr0 hs0
  simp only at hr hr0 hs hs0 h ⊢
  have hrr : r = r0 := hr.trans hr0.symm
  subst hrr
  cases r with
  | error err =>
    simp only
    split_ifs <;> simp [logAt, hs0]
  | ok og =>
    simp only at h ⊢
    split_ifs at h ⊢ with ht
    · simp [logAt, hs0]
    · split at h
      · simp [logAt, hs0]
      · exfalso
        rw [saveArticle_saveCalls, hs] at h
        simp at h

/-- A loop over entries each of which is skipped or has its link in the store already leaves
the store and the publications as they are. -/
theorem processLoop_blocked (env : Env) (feed : Feed)
    (hsave : ∀ w a, env.Save w a = SaveArticle w.articles a) :
    ∀ (items : List Item) (w : World),
      (∀ item ∈ items, (∀ w0, (processItem env w0 feed item).saveCalls = w0.saveCalls) ∨
        item.Link ∈ w.articles.map (fun b => b.Link)) →
      (processLoop env feed items w).1.articles = w.articles ∧
      (processLoop env feed items w).1.published = w.published
  | [], w, _ => by simp [processLoop]
  | item :: rest, w, h => by
    unfold processLoop
    split_ifs with hc
    · exact ⟨rfl, rfl⟩
    · obtain ⟨_, ha1, hs1, hp1⟩ := parseOpengraphMeta_world env w item.Link
      have hstep : (processItem env w feed item).articles = w.articles ∧
          (processItem env w feed item).published = w.published := by
        rcases (processItem_cases env w feed item).2 with hskip | ⟨a, hlink, _, _, _, heq⟩
        · exact hskip.2
        · rcases h item (List.mem_cons_self _ _) with hsk | hin
          · exfalso
            have h1 := hsk w
            rw [heq, saveArticle_saveCalls, hs1] at h1
            simp at h1
          · have hfail : env.Save (parseOpengraphMeta env w item.Link).1 a ≠ none := by
              rw [hsave, ha1, SaveArticle, if_pos (by rw [hlink]; exact hin)]
              simp
            have h2 := saveArticle_fail env _ a hfail
            rw [ha1, hp1, ← heq] at h2
            exact h2
      have ih := processLoop_blocked env feed hsave rest (processItem env w feed item)
        (by
          intro it hit
          rcases h it (List.mem_cons_of_mem _ hit) with h1 | h1
          · exact Or.inl h1
          · right
            rw [hstep.1]
            exact h1)
      exact ⟨ih.1.trans hstep.1, ih.2.trans hstep.2⟩

/-- After a loop that is not cancelled, the store has only grown, by articles of the entries
of the loop, and every entry of the loop is one that is always skipped or has its link in the
store. -/
theorem processLoop_after (env : Env) (feed : Feed)
    (hnc : ∀ w, env.ctxDone w = false)
    (hsave : ∀ w a, env.Save w a = SaveArticle w.articles a)
    (hpage : ∀ w0 w1 url, env.httpDo w0 url = env.httpDo w1 url) :
    ∀ (items : List Item) (w : World),
      ∃ added : List Article,
        (processLoop env feed items w).1.articles = w.articles ++ added ∧
        (∀ a ∈ added, a.Link ∈ items.map (fun e => e.Link)) ∧
        (∀ item ∈ items, (∀ w0, (processItem env w0 feed item).saveCalls = w0.saveCalls) ∨
          item.Link ∈ (processLoop env feed items w).1.articles.map (fun b => b.Link))
  | [], w => ⟨[], by simp [processLoop], by simp, by simp⟩
  | item :: rest, w => by
    have hstep : processLoop env feed (item :: rest) w =
        processLoop env feed rest (processItem env w feed item) := by
      rw [processLoop, if_neg (by simp [hnc w])]
    obtain ⟨added, hA, hL, hB⟩ :=
      processLoop_after env feed hnc hsave hpage rest (processItem env w feed item)
    obtain ⟨_, ha1, hs1, hp1⟩ := parseOpengraphMeta_world env w item.Link
    rw [hstep]
    rcases (processItem_cases env w feed item).2 with hskip | ⟨a, hlink, _, _, _, heq⟩
    · refine ⟨added, by rw [hA, hskip.2.1], ?_, ?_⟩
      · intro b hb
        exact List.mem_cons_of_mem _ (hL b hb)
      · intro it hit
        rcases List.mem_cons.mp hit with h | h
        · subst h
          exact Or.inl (fun w0 => processItem_skip_det env feed it hpage w w0 hskip.1)
        · exact hB it h
    · by_cases hok : env.Save (parseOpengraphMeta env w item.Link).1 a = none
      · have h2 := (saveArticle_ok env _ a hok).1
        rw [ha1, ← heq] at h2
        refine ⟨a :: added, by rw [hA, h2]; simp, ?_, ?_⟩
        · intro b hb
          rcases List.mem_cons.mp hb with h | h
          · subst h
            rw [hlink]
            exact List.mem_cons_self _ _
          · exact List.mem_cons_of_mem _ (hL b h)
        · intro it hit
          rcases List.mem_cons.mp hit with h | h
          · subst h
            right
            rw [hA, h2]
            exact List.mem_map.mpr ⟨a, by simp, hlink⟩
          · exact hB it h
      · have h2 := (saveArticle_fail env _ a hok).1
        rw [ha1, ← heq] at h2
        refine ⟨added, by rw [hA, h2], ?_, ?_⟩
        · intro b hb
          exact List.mem_cons_of_mem _ (hL b hb)
        · intro it hit
          rcases List.mem_cons.mp hit with h | h
          · subst h
            right
            rw [hsave, ha1] at hok
            have hin : a.Link ∈ w.articles.map (fun b => b.Link) := by
              by_contra hn
              exact hok (by rw [SaveArticle, if_neg hn])
            rw [hA, h2, ← hlink]
            obtain ⟨b, hb, hbl⟩ := List.mem_map.mp hin
            exact List.mem_map.mpr ⟨b, List.mem_append_left _ hb, hbl⟩
          · exact hB it h

theorem head?_orderedInsert_pubDate (x : Article) (l : List Article) :
    (l.orderedInsert (fun a b => a.PubDate ≥ b.PubDate) x).head? = pickFirst x l.head? := by
  cases l with
  | nil => rfl
  | cons h t =>
    simp only [List.orderedInsert, List.head?_cons, pickFirst]
    split_ifs <;> rfl

theorem head?_insertionSort_pubDate : ∀ (l : List Article),
    (l.insertionSort (fun a b => a.PubDate ≥ b.PubDate)).head? = l.foldr pickFirst none
  | [] => rfl
  | x :: l => by
    rw [List.insertionSort, head?_orderedInsert_pubDate, head?_insertionSort_pubDate l]
    rfl

theorem foldr_pickFirst_mem : ∀ (l : List Article) (o : Option Article) (h : Article),
    l.foldr pickFirst o = some h → h ∈ l ∨ o = some h
  | [], _, _, hf => Or.inr hf
  | x :: l, o, h, hf => by
    simp only [List.foldr_cons] at hf
    cases hv : l.foldr pickFirst o with
    | none =>
      rw [hv] at hf
      simp only [pickFirst, Option.some.injEq] at hf
      subst hf
      exact Or.inl (List.mem_cons_self _ _)
    | some v =>
      rw [hv] at hf
      simp only [pickFirst] at hf
      split_ifs at hf
      · simp only [Option.some.injEq] at hf
        subst hf
        exact Or.inl (List.mem_cons_self _ _)
      · simp only [Option.some.injEq] at hf
        subst hf
        rcases foldr_pickFirst_mem l o v hv with h1 | h1
        · exact Or.inl (List.mem_cons_of_mem _ h1)
        · exact Or.inr h1

/-- Putting a list in front of a sorted pass either leaves the winner of the list alone or
keeps the initial article, which is then strictly later than every element of the list. -/
theorem foldr_pickFirst_cases (a : Article) : ∀ (l : List Article),
    l.foldr pickFirst (some a) = l.foldr pickFirst none ∨
    (l.foldr pickFirst (some a) = some a ∧ ∀ y ∈ l, y.PubDate < a.PubDate)
  | [] => Or.inr ⟨rfl, by simp⟩
  | x :: l => by
    simp only [List.foldr_cons]
    rcases foldr_pickFirst_cases a l with h | ⟨h, hlt⟩
    · left
      rw [h]
    · rw [h]
      by_cases hx : x.PubDate ≥ a.PubDate
      · left
        simp only [pickFirst, if_pos hx]
        cases hv0 : l.foldr pickFirst none with
        | none => rfl
        | some h0 =>
          rcases foldr_pickFirst_mem l none h0 hv0 with hm | hm
          · have hlt0 := hlt h0 hm
            have hge : x.PubDate ≥ h0.PubDate := le_of_lt (lt_of_lt_of_le hlt0 hx)
            simp only [pickFirst, if_pos hge]
          · simp at hm
      · right
        simp only [pickFirst, if_neg hx]
        refine ⟨trivial, ?_⟩
        intro y hy
        rcases List.mem_cons.mp hy with h1 | h1
        · subst h1
          exact not_le.mp hx
        · exact hlt y h1

theorem mem_FindArticlesByLinks (store : List Article) (links : List String) (n : Nat)
    (a : Article) (h : a ∈ FindArticlesByLinks store links n) : a ∈ store ∧ a.Link ∈ links := by
  unfold FindArticlesByLinks at h
  have h1 := List.mem_of_mem_take h
  rw [List.mem_insertionSort] at h1
  have h2 := List.mem_filter.mp h1
  exact ⟨h2.1, by simpa using h2.2⟩

/-- The first article the store yields after it has grown is the one it yielded before, or one
of the articles added. -/
theorem head?_FindArticlesByLinks_append (store added : List Article) (links : List String)
    (n : Nat) :
    (FindArticlesByLinks (store ++ added) links n).head? =
      (FindArticlesByLinks store links n).head? ∨
    ∃ a ∈ added, a.Link ∈ links ∧
      (FindArticlesByLinks (store ++ added) links n).head? = some a := by
  unfold FindArticlesByLinks
  simp only [List.head?_take]
  by_cases hn : n = 0
  · left
    simp [hn]
  · simp only [if_neg hn, head?_insertionSort_pubDate, List.filter_append, List.foldr_append]
    cases ho : (added.filter (fun a => decide (a.Link ∈ links))).foldr pickFirst none with
    | none => exact Or.inl rfl
    | some a =>
      have hmem : a ∈ added.filter (fun a => decide (a.Link ∈ links)) := by
        rcases foldr_pickFirst_mem _ none a ho with h | h
        · exact h
        · simp at h
      rcases foldr_pickFirst_cases a (store.filter (fun a => decide (a.Link ∈ links))) with
        h | ⟨h, _⟩
      · exact Or.inl h
      · exact Or.inr ⟨a, (List.mem_filter.mp hmem).1, by simpa using (List.mem_filter.mp hmem).2,
          h⟩

theorem find?_eq_head?_of_all {α : Type} (p : α → Bool) :
    ∀ (l : List α), (∀ x ∈ l, p x = true) → l.find? p = l.head?
  | [], _ => rfl
  | x :: l, h => by
    rw [List.find?_cons_of_pos _ (h x (List.mem_cons_self _ _))]
    rfl

/-- On the store model, `findLastIndex` is a function of the first article yielded. -/
theorem findLastIndex_store (env : Env) (w : World) (items : List Item)
    (hfind : ∀ w0 links n,
      env.FindIter w0 links n = .ok (FindArticlesByLinks w0.articles links n)) :
    findLastIndex env w items =
      match (FindArticlesByLinks w.articles (items.map (fun item => item.Link))
        items.length).head? with
      | some a =>
        match buildSeen 0 items (fun _ => none) a.Link with
        | some i => .ok (i : Int)
        | none => .ok (-1)
      | none => .ok (-1) := by
  rw [findLastIndex_eq env w items _ (hfind w _ _), find?_eq_head?_of_all]
  intro x hx
  exact decide_eq_true (mem_FindArticlesByLinks _ _ _ _ hx).2

theorem processParsed_of_cursor (env : Env) (feed : Feed) (w : World) (items : List Item)
    (c : Int) (h : findLastIndex env w items = .ok c) :
    processParsed env feed w items =
      processLoop env feed ((trimItems items c).getD []) w := by
  unfold processParsed
  rw [h]
  simp only
  cases trimItems items c <;> rfl

theorem trimItems_suffix (items : List Item) (lastIndex : Int) :
    (trimItems items lastIndex).getD [] <:+ items := by
  unfold trimItems
  split_ifs
  · exact List.drop_suffix _ _
  · exact List.nil_suffix
  · exact List.suffix_refl _

theorem collectAuthors_congr (env env2 : Env) (h : env2.StripHTMLTags = env.StripHTMLTags) :
    ∀ (l : List (Option Person)), collectAuthors env2 l = collectAuthors env l
  | [] => rfl
  | none :: rest => by
    simp only [collectAuthors]
    exact collectAuthors_congr env env2 h rest
  | some author :: rest => by
    simp only [collectAuthors, h, collectAuthors_congr env env2 h rest]

theorem collectCategories_congr (env env2 : Env) (h : env2.StripHTMLTags = env.StripHTMLTags) :
    ∀ (l : List String), collectCategories env2 l = collectCategories env l
  | [] => rfl
  | category :: rest => by
    simp only [collectCategories, h, collectCategories_congr env env2 h rest]

theorem buildArticle_ctxDone (env : Env) (done2 : World → Bool) (w : World) (feed : Feed)
    (item : Item) (og : OpenGraph) (lang shortDesc : String) :
    buildArticle { env with ctxDone := done2 } w feed item og lang shortDesc =
      buildArticle env w feed item og lang shortDesc := by
  unfold buildArticle
  simp only [collectAuthors_congr env { env with ctxDone := done2 } rfl,
    collectCategories_congr env { env with ctxDone := done2 } rfl]

/-- The enricher does not look at the context: with another cancellation signal it does the
same. -/
theorem processItem_ctxDone (env : Env) (done2 : World → Bool) (w : World) (feed : Feed)
    (item : Item) :
    processItem { env with ctxDone := done2 } w feed item = processItem env w feed item := by
  unfold processItem
  simp only [buildArticle_ctxDone]
  rfl

/-- The second of two runs on the same candidates, the first one not cancelled, the second
one under any cancellation signal: the store and the publications stay as the first run left
them. -/
theorem processParsed_second_run (env : Env) (feed : Feed) (items : List Item) (w w2 : World)
    (done2 : World → Bool)
    (hnc : ∀ w0, env.ctxDone w0 = false)
    (hsave : ∀ w0 a, env.Save w0 a = SaveArticle w0.articles a)
    (hfind : ∀ w0 links n,
      env.FindIter w0 links n = .ok (FindArticlesByLinks w0.articles links n))
    (hpage : ∀ w0 w1 url, env.httpDo w0 url = env.httpDo w1 url)
    (hw2 : w2.articles = (processParsed env feed w items).1.articles) :
    (processParsed { env with ctxDone := done2 } feed w2 items).1.articles = w2.articles ∧
    (processParsed { env with ctxDone := done2 } feed w2 items).1.published =
      w2.published := by
  have hc1form := findLastIndex_store env w items hfind
  have hc2form := findLastIndex_store env w2 items hfind
  obtain ⟨c1, hc1⟩ : ∃ c, findLastIndex env w items = .ok c := by
    rw [hc1form]
    split
    · split <;> exact ⟨_, rfl⟩
    · exact ⟨_, rfl⟩
  obtain ⟨c2, hc2⟩ : ∃ c, findLastIndex env w2 items = .ok c := by
    rw [hc2form]
    split
    · split <;> exact ⟨_, rfl⟩
    · exact ⟨_, rfl⟩
  have hc2b : findLastIndex { env with ctxDone := done2 } w2 items = .ok c2 := hc2
  have hrun1 := processParsed_of_cursor env feed w items c1 hc1
  have hrun2 := processParsed_of_cursor { env with ctxDone := done2 } feed w2 items c2 hc2b
  obtain ⟨added, hA, hL, hB⟩ :=
    processLoop_after env feed hnc hsave hpage ((trimItems items c1).getD []) w
  rw [hrun1] at hw2
  rw [hrun2]
  have hsub : ∀ y ∈ (trimItems items c2).getD [], y ∈ (trimItems items c1).getD [] := by
    rcases head?_FindArticlesByLinks_append w.articles added
      (items.map (fun item => item.Link)) items.length with hh | ⟨a, ha, hal, hh⟩
    · have hcc : findLastIndex env w2 items = findLastIndex env w items := by
        rw [hc2form, hc1form, hw2, hA, hh]
      rw [hc1, hc2] at hcc
      injection hcc with hcc
      subst hcc
      exact fun y hy => hy
    · obtain ⟨item, hitem, hil⟩ := List.mem_map.mp (hL a ha)
      obtain ⟨pre, e, post, hd, he, hp⟩ := exists_last_occurrence a.Link items hal
      have hc2c : findLastIndex env w2 items = .ok (pre.length : Int) := by
        rw [hc2form, hw2, hA, hh]
        simp only
        rw [hd, buildSeen_last a.Link pre e post 0 _ he hp]
        simp
      rw [hc2] at hc2c
      injection hc2c with hcc
      have hnew2 : (trimItems items c2).getD [] = post := by
        rw [hcc, hd, trimItems_split]
        split_ifs with hpn
        · simp [hpn]
        · rfl
      rw [hnew2]
      have hs1 : (trimItems items c1).getD [] <:+ items := trimItems_suffix _ _
      have hs2 : post <:+ items := by
        rw [hd]
        exact ⟨pre ++ [e], by simp⟩
      rcases List.suffix_or_suffix_of_suffix hs1 hs2 with h | h
      · exact absurd hil (hp item (h.subset hitem))
      · exact fun y hy => h.subset hy
  apply processLoop_blocked { env with ctxDone := done2 } feed (fun w0 a => hsave w0 a)
  intro it hit
  rw [hw2]
  rcases hB it (hsub it hit) with h | h
  · left
    intro w0
    rw [processItem_ctxDone]
    exact h w0
  · exact Or.inr h

/-- A run either leaves the store and the publications alone or has found its feed and parsed
it without error. -/
theorem ProcessTask_cases (env : Env) (w : World) (payload : Option String) :
    ((ProcessTask env w payload).1.articles = w.articles ∧
      (ProcessTask env w payload).1.published = w.published) ∨
    ∃ p id feed w1 items, payload = some p ∧ env.uuidParse p = some id ∧
      env.FindByID w id = .ok feed ∧ parseFeed env w feed.Link = (w1, items, none) := by
  cases payload with
  | none => exact Or.inl ⟨rfl, rfl⟩
  | some p =>
    cases hid : env.uuidParse p with
    | none =>
      left
      unfold ProcessTask
      simp only [hid]
      exact ⟨rfl, rfl⟩
    | some id =>
      cases hfeed : env.FindByID w id with
      | error err =>
        left
        unfold ProcessTask
        simp only [hid, hfeed]
        split_ifs <;> exact ⟨rfl, rfl⟩
      | ok feed =>
        rcases hparse : parseFeed env w feed.Link with ⟨w1, items, _ | err⟩
        · exact Or.inr ⟨p, id, feed, w1, items, rfl, hid, hfeed, hparse⟩
        · left
          obtain ⟨_, h2, _, h4⟩ := parseFeed_world env w feed.Link
          rw [hparse] at h2 h4
          simp only at h2 h4
          unfold ProcessTask
          simp only [hid, hfeed, hparse]
          split_ifs <;> simp [logAt, h2, h4]

/-- C3, as the code has it. Idempotence. Take a store that rejects an article whose link it
holds and accepts any other, and that answers the cursor query with the stored articles
having a candidate link, by descending publish time, equal times in storage order; page
requests that are deterministic; a feed descriptor and a normalized feed that are the same in
both runs; and a first run that is not cancelled. Then a second `ProcessTask` run on the same
payload, under any cancellation signal, stores nothing and publishes nothing. Nothing is
assumed on the publish times (they may tie) nor on which entries the first run skipped. -/
theorem C3_idempotence (env : Env) (w : World) (payload : Option String)
    (done2 : World → Bool)
    (hsave : ∀ w0 a, env.Save w0 a = SaveArticle w0.articles a)
    (hfind : ∀ w0 links n,
      env.FindIter w0 links n = .ok (FindArticlesByLinks w0.articles links n))
    (hpage : ∀ w0 w1 url, env.httpDo w0 url = env.httpDo w1 url)
    (hfeed : ∀ w0 w1 id, env.FindByID w0 id = env.FindByID w1 id)
    (hnorm : ∀ w0 w1 link, (parseFeed env w0 link).2 = (parseFeed env w1 link).2)
    (hnc : ∀ w0, env.ctxDone w0 = false) :
    (ProcessTask { env with ctxDone := done2 } (ProcessTask env w payload).1 payload).1.articles =
      (ProcessTask env w payload).1.articles ∧
    (ProcessTask { env with ctxDone := done2 } (ProcessTask env w payload).1
      payload).1.published = (ProcessTask env w payload).1.published := by
  rcases ProcessTask_cases { env with ctxDone := done2 } (ProcessTask env w payload).1 payload
    with h | ⟨p, id, feed, w2, items, hp, hid, hfeed2, hparse2⟩
  · exact h
  · subst hp
    have hid1 : env.uuidParse p = some id := hid
    have hfeed2b : env.FindByID (ProcessTask env w (some p)).1 id = .ok feed := hfeed2
    have hfeed1 : env.FindByID w id = .ok feed := (hfeed w _ id).trans hfeed2b
    have hparse2b : parseFeed env (ProcessTask env w (some p)).1 feed.Link =
        (w2, items, none) := by
      rw [← parseFeed_congr env { env with ctxDone := done2 } _ feed.Link rfl rfl rfl]
      exact hparse2
    have hn := hnorm w (ProcessTask env w (some p)).1 feed.Link
    rw [hparse2b] at hn
    rcases hparse1 : parseFeed env w feed.Link with ⟨w1, r⟩
    rw [hparse1] at hn
    simp only at hn
    subst hn
    have hR1 := ProcessTask_eq_processParsed env w w1 p id feed items hid1 hfeed1 hparse1
    have hR2 := ProcessTask_eq_processParsed { env with ctxDone := done2 }
      (ProcessTask env w (some p)).1 w2 p id feed items hid hfeed2 hparse2
    obtain ⟨_, h2a, _, h2p⟩ := parseFeed_world env (ProcessTask env w (some p)).1 feed.Link
    rw [hparse2b] at h2a h2p
    simp only at h2a h2p
    have hmain := processParsed_second_run env feed items w1 w2 done2 hnc hsave hfind hpage
      (by rw [h2a, hR1])
    rw [hR2, hmain.1, hmain.2, h2a, h2p]
    exact ⟨rfl, rfl⟩

/-- Witness for C3: two entries with the same publish time and a third one that is skipped for
want of a title; the first run stores two articles, the second run, not cancelled either,
none. -/
theorem C3_idempotence_witness :
    (ProcessTask (storeEnv [some (sampleItem "https://x/a" 10),
        some (sampleItem "https://x/b" 10),
        some ⟨"", "", "", "https://x/c", [], "", some 11, none, [], []⟩])
      emptyWorld (some "7")).1.articles.map (fun a => a.Link) = ["https://x/a", "https://x/b"] ∧
    (ProcessTask { storeEnv [some (sampleItem "https://x/a" 10),
        some (sampleItem "https://x/b" 10),
        some ⟨"", "", "", "https://x/c", [], "", some 11, none, [], []⟩] with
        ctxDone := fun _ => false }
      (ProcessTask (storeEnv [some (sampleItem "https://x/a" 10),
        some (sampleItem "https://x/b" 10),
        some ⟨"", "", "", "https://x/c", [], "", some 11, none, [], []⟩])
      emptyWorld (some "7")).1 (some "7")).1.articles =
    (ProcessTask (storeEnv [some (sampleItem "https://x/a" 10),
        some (sampleItem "https://x/b" 10),
        some ⟨"", "", "", "https://x/c", [], "", some 11, none, [], []⟩])
      emptyWorld (some "7")).1.articles :=
  ⟨by decide,
   (C3_idempotence (storeEnv [some (sampleItem "https://x/a" 10),
        some (sampleItem "https://x/b" 10),
        some ⟨"", "", "", "https://x/c", [], "", some 11, none, [], []⟩])
      emptyWorld (some "7") (fun _ => false) (fun _ _ => rfl) (fun _ _ _ => rfl)
      (fun _ _ _ => rfl) (fun _ _ _ => rfl) (fun _ _ _ => rfl) (fun _ => rfl)).1⟩

/-- C3 fails as stated, in three ways. First: the store holds the article of `b` (published
at 100), the feed lists `a`, without any timestamp, and `b`; the first run, at clock 50, sorts
`a` before `b`, finds the cursor on `b` and stores nothing; the second run, at clock 200,
sorts `a` after `b` and stores the article of `a`. Second: the first run is cancelled after
its first entry, and the second run stores the article of the other entry. Third: the feed
lists `p`, `q`, `r`, `s`, all published at 10, and the store holds the articles of `p` and
`r`; it yields `r` first to the first run, which stores the article of `s`, and `p` first to
the second run, which stores the article of `q`. -/
theorem C3_counterexample :
    ((ProcessTask (clockEnv [some (undatedItem "https://x/a"),
        some (sampleItem "https://x/b" 100)])
      ⟨[sampleArticle 9 "https://x/b" 100], [], [], [], []⟩ (some "7")).1.articles =
        [sampleArticle 9 "https://x/b" 100] ∧
     (ProcessTask (clockEnv [some (undatedItem "https://x/a"),
        some (sampleItem "https://x/b" 100)])
      (ProcessTask (clockEnv [some (undatedItem "https://x/a"),
        some (sampleItem "https://x/b" 100)])
      ⟨[sampleArticle 9 "https://x/b" 100], [], [], [], []⟩ (some "7")).1
      (some "7")).1.articles =
        [sampleArticle 9 "https://x/b" 100, sampleArticle 0 "https://x/a" 200]) ∧
    ((ProcessTask (cancelEnv [some (sampleItem "https://x/a" 1),
        some (sampleItem "https://x/b" 2)]) emptyWorld (some "7")).1.articles =
        [sampleArticle 0 "https://x/a" 1] ∧
     (ProcessTask (cancelEnv [some (sampleItem "https://x/a" 1),
        some (sampleItem "https://x/b" 2)])
      (ProcessTask (cancelEnv [some (sampleItem "https://x/a" 1),
        some (sampleItem "https://x/b" 2)]) emptyWorld (some "7")).1
      (some "7")).1.articles =
        [sampleArticle 0 "https://x/a" 1, sampleArticle 1 "https://x/b" 2]) ∧
    ((ProcessTask tieEnv tieStored (some "7")).1.articles.map (fun a => a.Link) =
        ["https://x/p", "https://x/r", "https://x/s"] ∧
     (ProcessTask tieEnv (ProcessTask tieEnv tieStored (some "7")).1
      (some "7")).1.articles.map (fun a => a.Link) =
        ["https://x/p", "https://x/r", "https://x/s", "https://x/q"]) := by
  decide

/-! ## The normalizer, entry by entry -/

theorem normalizeItems_fst_err (env : Env) (w : World) :
    ∀ (raw : List (Option Item)) (i : Nat) (e1 e2 : Option Err),
      (normalizeItems env w i raw e1).1 = (normalizeItems env w i raw e2).1
  | [], _, _, _ => rfl
  | none :: rest, i, e1, e2 => by
    simp only [normalizeItems]
    exact normalizeItems_fst_err env w rest (i + 1) e1 e2
  | some item :: rest, i, e1, e2 => by
    simp only [normalizeItems]

/-- The entries kept from `some item :: rest` are the normalized `item`, if it is kept,
followed by those kept from `rest`. -/
theorem normalizeItems_cons_some (env : Env) (w : World) (item : Item)
    (rest : List (Option Item)) (i : Nat) (err : Option Err) :
    (normalizeItems env w i (some item :: rest) err).1 =
      (normalizeOne env w i item).toList ++ (normalizeItems env w (i + 1) rest none).1 := by
  simp only [normalizeItems, normalizeOne, canonicalLink]
  by_cases hg : env.ParseRequestURI item.GUID = true
  · simp [hg]
  · simp only [hg]
    by_cases hl : env.ParseRequestURI
        (if item.Link = "" ∧ item.Links.length > 0 then item.Links.headD "" else item.Link) = true
    · by_cases hc : item.Link = "" ∧ item.Links.length > 0
      · simp [hc] at hl ⊢
        simp [hl]
      · simp [hc] at hl ⊢
        simp [hl]
    · by_cases hc : item.Link = "" ∧ item.Links.length > 0
      · simp [hc] at hl ⊢
        simp [hl]
        exact normalizeItems_fst_err env w rest (i + 1) _ _
      · simp [hc] at hl ⊢
        simp [hl]
        exact normalizeItems_fst_err env w rest (i + 1) _ _

theorem normalizeItems_cons_none (env : Env) (w : World) (rest : List (Option Item)) (i : Nat)
    (err : Option Err) :
    (normalizeItems env w i (none :: rest) err).1 =
      (normalizeItems env w (i + 1) rest none).1 := by
  simp only [normalizeItems]
  exact normalizeItems_fst_err env w rest (i + 1) _ _

/-- The entries kept by the loop of `parseFeed` are the normalized non-nil raw entries that
pass the link check. -/
theorem mem_normalizeItems (env : Env) (w : World) (out : Item) :
    ∀ (raw : List (Option Item)) (i : Nat) (err : Option Err),
      out ∈ (normalizeItems env w i raw err).1 ↔
        ∃ j item, raw.get? j = some (some item) ∧ normalizeOne env w (i + j) item = some out
  | [], i, err => by simp [normalizeItems]
  | none :: rest, i, err => by
    rw [normalizeItems_cons_none, mem_normalizeItems env w out rest (i + 1) none]
    constructor
    · rintro ⟨j, item, hj, hn⟩
      exact ⟨j + 1, item, by simpa using hj, by rw [← hn]; congr 1; omega⟩
    · rintro ⟨j, item, hj, hn⟩
      cases j with
      | zero => simp at hj
      | succ k => exact ⟨k, item, by simpa using hj, by rw [← hn]; congr 1; omega⟩
  | some x :: rest, i, err => by
    rw [normalizeItems_cons_some, List.mem_append,
      mem_normalizeItems env w out rest (i + 1) none]
    constructor
    · rintro (h | ⟨j, item, hj, hn⟩)
      · exact ⟨0, x, rfl, by simpa using h⟩
      · exact ⟨j + 1, item, by simpa using hj, by rw [← hn]; congr 1; omega⟩
    · rintro ⟨j, item, hj, hn⟩
      cases j with
      | zero =>
        left
        simp only [List.get?_cons_zero, Option.some.injEq] at hj
        subst hj
        simpa using hn
      | succ k =>
        right
        exact ⟨k, item, by simpa using hj, by rw [← hn]; congr 1; omega⟩

theorem parseFeed_of_ok (env : Env) (w : World) (link : String) (raw : List (Option Item))
    (hraw : env.ParseURLWithContext w link = .ok raw) :
    parseFeed env w link = (logAt w .debug "feed link parsed",
      sortSlice itemBefore (normalizeItems env w 0 raw none).1,
      (normalizeItems env w 0 raw none).2) := by
  unfold parseFeed
  rw [hraw]

theorem sortSlice_perm {α : Type} (less : α → α → Bool) (xs : List α) :
    (sortSlice less xs).Perm xs :=
  List.perm_insertionSort _ xs

/-- The entries `parseFeed` returns are the normalized non-nil raw entries that pass the link
check. -/
theorem mem_parseFeed (env : Env) (w : World) (link : String) (raw : List (Option Item))
    (hraw : env.ParseURLWithContext w link = .ok raw) (out : Item) :
    out ∈ (parseFeed env w link).2.1 ↔
      ∃ j item, raw.get? j = some (some item) ∧ normalizeOne env w j item = some out := by
  rw [parseFeed_of_ok env w link raw hraw]
  simp only
  rw [(sortSlice_perm itemBefore _).mem_iff, mem_normalizeItems env w out raw 0 none]
  simp only [Nat.zero_add]

theorem resolveTimestamp_Link (env : Env) (w : World) (i : Nat) (item : Item) :
    (resolveTimestamp env w i item).Link = item.Link := by
  unfold resolveTimestamp
  cases item.PublishedParsed with
  | some t => rfl
  | none => cases item.UpdatedParsed <;> rfl

theorem resolveTimestamp_PublishedParsed (env : Env) (w : World) (i : Nat) (item : Item) :
    (resolveTimestamp env w i item).PublishedParsed =
      some (match item.PublishedParsed with
        | some t => t
        | none =>
          match item.UpdatedParsed with
          | some u => u
          | none => env.Now w i) := by
  unfold resolveTimestamp
  cases hp : item.PublishedParsed with
  | some t => simp only [hp]
  | none => cases hu : item.UpdatedParsed <;> rfl

theorem normalizeOne_some (env : Env) (w : World) (i : Nat) (item out : Item)
    (h : normalizeOne env w i item = some out) :
    canonicalLink env item = some out.Link ∧
    out.PublishedParsed =
      some (match item.PublishedParsed with
        | some t => t
        | none =>
          match item.UpdatedParsed with
          | some u => u
          | none => env.Now w i) := by
  unfold normalizeOne at h
  cases hc : canonicalLink env item with
  | none => rw [hc] at h; simp at h
  | some l =>
    rw [hc] at h
    simp only [Option.some.injEq] at h
    subst h
    rw [resolveTimestamp_Link, resolveTimestamp_PublishedParsed]
    exact ⟨rfl, rfl⟩

theorem canonicalLink_accepted (env : Env) (item : Item) (l : String)
    (h : canonicalLink env item = some l) : env.ParseRequestURI l = true := by
  unfold canonicalLink at h
  by_cases hg : env.ParseRequestURI item.GUID = true
  · rw [if_pos hg] at h
    simp only [Option.some.injEq] at h
    rw [← h]
    exact hg
  · rw [if_neg hg] at h
    simp only at h
    by_cases hl : env.ParseRequestURI
        (if item.Link = "" ∧ item.Links.length > 0 then item.Links.headD "" else item.Link) = true
    · rw [if_pos hl] at h
      simp only [Option.some.injEq] at h
      rw [← h]
      exact hl
    · rw [if_neg hl] at h
      simp at h

/-! ## C11: canonical link resolution -/

/-- C11, as the code has it. Canonical link resolution. The entries `parseFeed` returns are the
normalized non-nil raw entries that are kept; an entry is kept exactly when it has a canonical
link, which `url.ParseRequestURI` then accepts. The canonical link is the global identifier
when `url.ParseRequestURI` accepts it, whatever the entry's own link; otherwise the primary
link, or the first alternate link when the primary is empty, provided `url.ParseRequestURI`
accepts that one; otherwise there is none and the entry is dropped. -/
theorem C11_canonical_link (env : Env) (w : World) (link : String) (raw : List (Option Item))
    (hraw : env.ParseURLWithContext w link = .ok raw) :
    (∀ out, out ∈ (parseFeed env w link).2.1 ↔
      ∃ j item, raw.get? j = some (some item) ∧ normalizeOne env w j item = some out) ∧
    (∀ j item out, normalizeOne env w j item = some out →
      canonicalLink env item = some out.Link ∧ env.ParseRequestURI out.Link = true) ∧
    (∀ j item, canonicalLink env item = none → normalizeOne env w j item = none) ∧
    (∀ item, env.ParseRequestURI item.GUID = true → canonicalLink env item = some item.GUID) ∧
    (∀ item, env.ParseRequestURI item.GUID = false → (item.Link ≠ "" ∨ item.Links = []) →
      canonicalLink env item =
        if env.ParseRequestURI item.Link then some item.Link else none) ∧
    (∀ item l rest, env.ParseRequestURI item.GUID = false → item.Link = "" →
      item.Links = l :: rest →
      canonicalLink env item = if env.ParseRequestURI l then some l else none) := by
  refine ⟨fun out => mem_parseFeed env w link raw hraw out, ?_, ?_, ?_, ?_, ?_⟩
  · intro j item out h
    have h1 := (normalizeOne_some env w j item out h).1
    exact ⟨h1, canonicalLink_accepted env item out.Link h1⟩
  · intro j item h
    unfold normalizeOne
    rw [h]
  · intro item hg
    unfold canonicalLink
    rw [if_pos hg]
  · intro item hg hl
    unfold canonicalLink
    have hc : ¬ (item.Link = "" ∧ item.Links.length > 0) := by
      rintro ⟨h1, h2⟩
      rcases hl with h | h
      · exact h h1
      · rw [h] at h2
        simp at h2
    simp only [hg, hc, if_false, Bool.false_eq_true]
  · intro item l rest hg hl hls
    unfold canonicalLink
    simp [hg, hl, hls]

/-- Witness for C11, the spec's case: the identifier is "https://example.com/a" and the own
link "/relative/path"; the entry is kept with the identifier as its link. -/
theorem C11_canonical_link_witness :
    canonicalLink (uriEnv []) ⟨"T", "", "", "/relative/path", [], "https://example.com/a",
      some 1, none, [], []⟩ = some "https://example.com/a" ∧
    ((parseFeed (uriEnv [some ⟨"T", "", "", "/relative/path", [], "https://example.com/a",
      some 1, none, [], []⟩]) emptyWorld "https://feed.example/rss").2.1.map
        (fun e => e.Link)) = ["https://example.com/a"] :=
  ⟨(C11_canonical_link (uriEnv []) emptyWorld "https://feed.example/rss" [] rfl).2.2.2.1
      ⟨"T", "", "", "/relative/path", [], "https://example.com/a", some 1, none, [], []⟩
      (by decide),
    by decide⟩

/-- C11 fails as stated: `url.ParseRequestURI` accepts an absolute path, so an entry whose only
link is "/relative/path" is not dropped: `parseFeed` returns it, without error, with that
link, and `ProcessTask` requests that page; and an identifier that is an absolute path
becomes the link in place of the entry's absolute URL. -/
theorem C11_counterexample :
    parseFeed (uriEnv [some ⟨"T", "", "", "/relative/path", [], "", some 1, none, [], []⟩])
      emptyWorld "https://feed.example/rss" =
        (⟨[], [], [], [], [(Level.debug, "feed link parsed")]⟩,
          [⟨"T", "", "", "/relative/path", [], "", some 1, none, [], []⟩], none) ∧
    (ProcessTask (uriEnv [some ⟨"T", "", "", "/relative/path", [], "", some 1, none, [], []⟩])
      emptyWorld (some "7")).1.fetched = ["/relative/path"] ∧
    ((parseFeed (uriEnv [some ⟨"T", "", "", "https://example.com/a", [], "/posts/1", some 1,
      none, [], []⟩]) emptyWorld "https://feed.example/rss").2.1.map (fun e => e.Link)) =
        ["/posts/1"] := by
  decide

/-! ## C12: chronological ordering -/

/-- C12. Chronological ordering. The sequence `parseFeed` returns is a permutation of the
entries its loop kept (those that passed the link check, normalized), and it is sorted in
non-decreasing order of publish timestamp. -/
theorem C12_chronological_order (env : Env) (w : World) (link : String)
    (raw : List (Option Item)) (hraw : env.ParseURLWithContext w link = .ok raw) :
    (parseFeed env w link).2.1.Perm (normalizeItems env w 0 raw none).1 ∧
    (parseFeed env w link).2.1.Pairwise
      (fun a b => derefTime a.PublishedParsed ≤ derefTime b.PublishedParsed) ∧
    (∀ out, out ∈ (parseFeed env w link).2.1 ↔
      ∃ j item, raw.get? j = some (some item) ∧ normalizeOne env w j item = some out) := by
  refine ⟨?_, parseFeed_sorted env w link, fun out => mem_parseFeed env w link raw hraw out⟩
  rw [parseFeed_of_ok env w link raw hraw]
  exact sortSlice_perm itemBefore _

/-- Witness for C12: four raw entries out of order, two of them with the same time and one
without a link. -/
theorem C12_chronological_order_witness :
    (parseFeed (uriEnv [some (sampleItem "https://x/c" 3), some (sampleItem "https://x/a" 1),
      some (sampleItem "" 2), some (sampleItem "https://x/b" 1)]) emptyWorld
      "https://feed.example/rss").2.1.Perm
        [sampleItem "https://x/c" 3, sampleItem "https://x/a" 1, sampleItem "https://x/b" 1] ∧
    (parseFeed (uriEnv [some (sampleItem "https://x/c" 3), some (sampleItem "https://x/a" 1),
      some (sampleItem "" 2), some (sampleItem "https://x/b" 1)]) emptyWorld
      "https://feed.example/rss").2.1.map (fun e => derefTime e.PublishedParsed) = [1, 1, 3] :=
  ⟨(C12_chronological_order (uriEnv [some (sampleItem "https://x/c" 3),
      some (sampleItem "https://x/a" 1), some (sampleItem "" 2),
      some (sampleItem "https://x/b" 1)]) emptyWorld "https://feed.example/rss" _ rfl).1,
    by decide⟩

/-! ## C13: timestamp resolution -/

/-- C13. Timestamp resolution. Every entry `parseFeed` returns comes from a raw entry and has
its publish timestamp set: to the raw publish timestamp when there is one, else to the raw
update timestamp when there is one, else to the clock read while that raw entry is
normalized. So every entry the sort comparator is applied to, and every entry handed to
`processItem`, whatever the cursor, has a publish timestamp to dereference. -/
theorem C13_timestamp_resolution (env : Env) (w : World) (link : String)
    (raw : List (Option Item)) (hraw : env.ParseURLWithContext w link = .ok raw) :
    (∀ out ∈ (parseFeed env w link).2.1, ∃ j item, raw.get? j = some (some item) ∧
      out.PublishedParsed =
        some (match item.PublishedParsed with
          | some t => t
          | none =>
            match item.UpdatedParsed with
            | some u => u
            | none => env.Now w j)) ∧
    (∀ x ∈ (normalizeItems env w 0 raw none).1, x.PublishedParsed ≠ none) ∧
    (∀ lastIndex, ∀ item ∈ (trimItems (parseFeed env w link).2.1 lastIndex).getD [],
      item.PublishedParsed ≠ none) := by
  have hout : ∀ out ∈ (parseFeed env w link).2.1, ∃ j item, raw.get? j = some (some item) ∧
      out.PublishedParsed =
        some (match item.PublishedParsed with
          | some t => t
          | none =>
            match item.UpdatedParsed with
            | some u => u
            | none => env.Now w j) := by
    intro out hmem
    obtain ⟨j, item, hj, hn⟩ := (mem_parseFeed env w link raw hraw out).mp hmem
    exact ⟨j, item, hj, (normalizeOne_some env w j item out hn).2⟩
  refine ⟨hout, ?_, ?_⟩
  · intro x hx
    have hx2 : x ∈ (parseFeed env w link).2.1 := by
      rw [parseFeed_of_ok env w link raw hraw]
      exact (sortSlice_perm itemBefore _).mem_iff.mpr hx
    obtain ⟨j, item, _, hp⟩ := hout x hx2
    rw [hp]
    simp
  · intro lastIndex item hitem
    have hmem := (trimItems_sublist (parseFeed env w link).2.1 lastIndex).subset hitem
    obtain ⟨j, raw0, _, hp⟩ := hout item hmem
    rw [hp]
    simp

/-- Witness for C13: one entry with a publish timestamp, one with an update timestamp only,
one with neither (the clock of the sample environment reads 1000). -/
theorem C13_timestamp_resolution_witness :
    (parseFeed (uriEnv [some (sampleItem "https://x/a" 5),
      some ⟨"T", "", "", "https://x/b", [], "", none, some 7, [], []⟩,
      some (undatedItem "https://x/c")]) emptyWorld
      "https://feed.example/rss").2.1.map (fun e => e.PublishedParsed) =
        [some 5, some 7, some 1000] ∧
    (∀ x ∈ (normalizeItems (uriEnv [some (sampleItem "https://x/a" 5),
      some ⟨"T", "", "", "https://x/b", [], "", none, some 7, [], []⟩,
      some (undatedItem "https://x/c")]) emptyWorld 0 [some (sampleItem "https://x/a" 5),
      some ⟨"T", "", "", "https://x/b", [], "", none, some 7, [], []⟩,
      some (undatedItem "https://x/c")] none).1, x.PublishedParsed ≠ none) :=
  ⟨by decide,
    (C13_timestamp_resolution (uriEnv [some (sampleItem "https://x/a" 5),
      some ⟨"T", "", "", "https://x/b", [], "", none, some 7, [], []⟩,
      some (undatedItem "https://x/c")]) emptyWorld "https://feed.example/rss" _ rfl).2.1⟩

/-! ## The article handed to `Save` -/

/-- When `processItem` hands an article to `Save`, the page was fetched, the title resolved to
a non-empty string, a language was found, and the article is the one `buildArticle` makes. -/
theorem processItem_saved_inv (env : Env) (w : World) (feed : Feed) (item : Item) (a : Article)
    (h : (processItem env w feed item).saveCalls = w.saveCalls ++ [a]) :
    ∃ og lang, openGraphFetch env w item.Link = .ok og ∧
      resolveTitle env item.Title og (deriveShortDesc env og (resolveDescription item og)) ≠ "" ∧
      a = buildArticle env (parseOpengraphMeta env w item.Link).1 feed
        { item with
          Description := resolveDescription item og
          Title := resolveTitle env item.Title og
            (deriveShortDesc env og (resolveDescription item og)) }
        og lang (deriveShortDesc env og (resolveDescription item og)) := by
  obtain ⟨_, _, hs, _⟩ := parseOpengraphMeta_world env w item.Link
  cases hog : openGraphFetch env w item.Link with
  | error err =>
    exfalso
    have hr := parseOpengraphMeta_result env w item.Link
    unfold processItem at h
    rcases hpm : parseOpengraphMeta env w item.Link with ⟨w1, r⟩
    rw [hpm] at hr hs h
    simp only at hr hs
    rw [hog] at hr
    subst hr
    simp only at h
    split_ifs at h <;> simp [logAt, hs] at h
  | ok og =>
    rw [processItem_of_fetch env w feed item og hog] at h
    split_ifs at h with ht
    · simp [logAt, hs] at h
    · split at h
      · simp [logAt, hs] at h
      · rename_i lang _
        rw [saveArticle_saveCalls, hs] at h
        have ha := List.append_cancel_left h
        simp only [List.cons.injEq, and_true] at ha
        exact ⟨og, lang, rfl, ht, ha.symm⟩

theorem openGraphFetch_ok_unique (env : Env) (w : World) (url : String) (og og2 : OpenGraph)
    (h : openGraphFetch env w url = .ok og) (h2 : openGraphFetch env w url = .ok og2) :
    og2 = og := by
  rw [h] at h2
  injection h2 with h2
  exact h2.symm

/-! ## C16: title fallback order -/

/-- C16, as the code has it. Title fallback order. For an article `processItem` hands to
`Save` (so for every article it saves), built on the fetched page `og`: when the entry's
stripped title is not empty it is the article's title, whatever the page says; when it is
empty and the page title is not empty once stripped, the article's title is the stripped page
title; when both are empty once stripped (the page title as received may well be non-empty),
the article's title is the derived short description, cut to 97 runes, less one trailing
period, plus "..." when it has more than 100 runes. -/
theorem C16_title_fallback (env : Env) (w : World) (feed : Feed) (item : Item) (og : OpenGraph)
    (a : Article) (hog : openGraphFetch env w item.Link = .ok og)
    (hsaved : (processItem env w feed item).saveCalls = w.saveCalls ++ [a]) :
    (env.StripHTMLTags item.Title ≠ "" → a.Title = env.StripHTMLTags item.Title) ∧
    (env.StripHTMLTags item.Title = "" → env.StripHTMLTags og.Title ≠ "" →
      a.Title = env.StripHTMLTags og.Title) ∧
    (env.StripHTMLTags item.Title = "" → env.StripHTMLTags og.Title = "" →
      a.Title =
        if RuneCountInString (deriveShortDesc env og (resolveDescription item og)) > 100 then
          TrimSuffix (runeSlice (deriveShortDesc env og (resolveDescription item og)) 97) "."
            ++ "..."
        else deriveShortDesc env og (resolveDescription item og)) := by
  obtain ⟨og2, lang, hog2, _, ha⟩ := processItem_saved_inv env w feed item a hsaved
  have h2 := openGraphFetch_ok_unique env w item.Link og og2 hog hog2
  subst h2
  have hT : a.Title = resolveTitle env item.Title og2
      (deriveShortDesc env og2 (resolveDescription item og2)) := by
    rw [ha]
    rfl
  refine ⟨?_, ?_, ?_⟩
  · intro h1
    rw [hT]
    unfold resolveTitle
    simp only [if_neg h1]
  · intro h1 h2
    rw [hT]
    unfold resolveTitle
    simp only [if_pos h1, if_neg h2]
  · intro h1 h2
    rw [hT]
    unfold resolveTitle
    simp only [if_pos h1, if_pos h2]

/-- Witness for C16: the entry has no title and the page title is "<b>Page title</b>"; the
article is saved with the title "Page title". -/
theorem C16_title_fallback_witness :
    (processItem (pageEnv ⟨"<b>Page title</b>", "", [], [], []⟩) emptyWorld sampleFeed
      ⟨"", "", "", "https://x/a", [], "", some 1, none, [], []⟩).articles =
      [⟨0, 7, "en", "Page title", "https://x/a", 1, none, none, none, none, none⟩] ∧
    (⟨0, 7, "en", "Page title", "https://x/a", 1, none, none, none, none, none⟩ : Article).Title
      = tagStrip "<b>Page title</b>" :=
  ⟨by decide,
    (C16_title_fallback (pageEnv ⟨"<b>Page title</b>", "", [], [], []⟩) emptyWorld sampleFeed
      ⟨"", "", "", "https://x/a", [], "", some 1, none, [], []⟩
      ⟨"<b>Page title</b>", "", [], [], []⟩
      ⟨0, 7, "en", "Page title", "https://x/a", 1, none, none, none, none, none⟩
      rfl (by decide)).2.1 (by decide) (by decide)⟩

/-- C16 fails as stated: the entry has no title, the page title "<b></b>" is not empty but is
empty once stripped, and the description is "Hello world"; an article is saved, and its title
is "Hello world", not the stripped page title. -/
theorem C16_counterexample :
    (⟨"<b></b>", "", [], [], []⟩ : OpenGraph).Title ≠ "" ∧
    tagStrip "<b></b>" = "" ∧
    (processItem (pageEnv ⟨"<b></b>", "", [], [], []⟩) emptyWorld sampleFeed
      ⟨"", "Hello world", "", "https://x/a", [], "", some 1, none, [], []⟩).articles =
      [⟨0, 7, "en", "Hello world", "https://x/a", 1, none, none, none, none, none⟩] := by
  decide

/-! ## C15: description resolution -/

/-- C15, as the code has it. Description resolution. For an article `processItem` hands to
`Save`, built on the fetched page `og`, the description is the first of entry description,
entry content and page description that is a non-empty string as received (nothing is
stripped before the comparison), and it is stored as it is, as the long description, when it
has at least 50 runes. -/
theorem C15_description_resolution (env : Env) (w : World) (feed : Feed) (item : Item)
    (og : OpenGraph) (a : Article) (hog : openGraphFetch env w item.Link = .ok og)
    (hsaved : (processItem env w feed item).saveCalls = w.saveCalls ++ [a]) :
    (item.Description ≠ "" →
      a.LongDesc = if RuneCountInString item.Description ≥ 50 then some item.Description
        else none) ∧
    (item.Description = "" → item.Content ≠ "" →
      a.LongDesc = if RuneCountInString item.Content ≥ 50 then some item.Content else none) ∧
    (item.Description = "" → item.Content = "" →
      a.LongDesc = if RuneCountInString og.Description ≥ 50 then some og.Description
        else none) := by
  obtain ⟨og2, lang, hog2, _, ha⟩ := processItem_saved_inv env w feed item a hsaved
  have h2 := openGraphFetch_ok_unique env w item.Link og og2 hog hog2
  subst h2
  have hL : a.LongDesc = if RuneCountInString (resolveDescription item og2) ≥ 50 then
      some (resolveDescription item og2) else none := by
    rw [ha]
    rfl
  refine ⟨?_, ?_, ?_⟩
  · intro h1
    rw [hL]
    unfold resolveDescription
    simp only [if_neg h1]
  · intro h1 h2
    rw [hL]
    unfold resolveDescription
    simp only [if_pos h1, if_neg h2]
  · intro h1 h2
    rw [hL]
    unfold resolveDescription
    simp only [if_pos h1, if_pos h2]

/-- Witness for C15: the entry has no description and a content body of 60 runes, which
becomes the long description. -/
theorem C15_description_resolution_witness :
    (processItem (pageEnv ⟨"", "", [], [], []⟩) emptyWorld sampleFeed
      ⟨"T", "", plainBody, "https://x/a", [], "", some 1, none, [], []⟩).saveCalls =
      [⟨0, 7, "en", "T", "https://x/a", 1, some plainBody, some plainBody, none, none, none⟩] ∧
    (⟨0, 7, "en", "T", "https://x/a", 1, some plainBody, some plainBody, none, none,
      none⟩ : Article).LongDesc = some plainBody :=
  ⟨by decide,
    ((C15_description_resolution (pageEnv ⟨"", "", [], [], []⟩) emptyWorld sampleFeed
      ⟨"T", "", plainBody, "https://x/a", [], "", some 1, none, [], []⟩ ⟨"", "", [], [], []⟩
      ⟨0, 7, "en", "T", "https://x/a", 1, some plainBody, some plainBody, none, none, none⟩
      rfl (by decide)).2.1 rfl (by decide)).trans (by decide)⟩

/-- C15 fails as stated: the entry description is made only of markup (empty once stripped)
and the content body is plain text; the description used for the article is the markup,
stored as the long description, not the content body. -/
theorem C15_counterexample :
    tagStrip markupOnly = "" ∧ tagStrip plainBody = plainBody ∧
    resolveDescription ⟨"T", markupOnly, plainBody, "https://x/a", [], "", some 1, none, [], []⟩
      ⟨"", "", [], [], []⟩ = markupOnly ∧
    (processItem (pageEnv ⟨"", "", [], [], []⟩) emptyWorld sampleFeed
      ⟨"T", markupOnly, plainBody, "https://x/a", [], "", some 1, none, [], []⟩).articles =
      [⟨0, 7, "en", "T", "https://x/a", 1, none, some markupOnly, none, none, none⟩] := by
  decide

/-! ## The short description -/

theorem RuneCountInString_mk (l : List Char) : RuneCountInString ⟨l⟩ = l.length := rfl

theorem RuneCountInString_append (a b : String) :
    RuneCountInString (a ++ b) = RuneCountInString a + RuneCountInString b := by
  unfold RuneCountInString
  exact String.length_append a b

theorem TrimSuffix_of_suffix (p : String) (h : ".".data.isSuffixOf p.data = true) :
    TrimSuffix p "." = ⟨p.data.take (p.data.length - 1)⟩ := by
  unfold TrimSuffix
  rw [if_pos h]
  rfl

theorem TrimSuffix_of_not_suffix (p suffix : String)
    (h : ¬ suffix.data.isSuffixOf p.data = true) : TrimSuffix p suffix = p := by
  unfold TrimSuffix
  rw [if_neg h]

/-- The truncation of lines 119-120 applied to a string of more than 500 runes. -/
theorem truncated_shape (s : String) (hlen : RuneCountInString s > maxShortDesc) :
    RuneCountInString (runeSlice s (maxShortDesc - 3)) = 497 ∧
    (¬ ".".data.isSuffixOf (runeSlice s (maxShortDesc - 3)).data = true →
      TrimSuffix (runeSlice s (maxShortDesc - 3)) "." = runeSlice s 497 ∧
      RuneCountInString (TrimSuffix (runeSlice s (maxShortDesc - 3)) "." ++ "...") = 500) ∧
    (".".data.isSuffixOf (runeSlice s (maxShortDesc - 3)).data = true →
      TrimSuffix (runeSlice s (maxShortDesc - 3)) "." = runeSlice s 496 ∧
      RuneCountInString (TrimSuffix (runeSlice s (maxShortDesc - 3)) "." ++ "...") = 499) := by
  have hs : s.data.length > 500 := hlen
  have h497 : (s.data.take 497).length = 497 := by
    rw [List.length_take]
    omega
  have h3 : RuneCountInString "..." = 3 := by decide
  have hm : maxShortDesc - 3 = 497 := by decide
  rw [hm]
  refine ⟨h497, ?_, ?_⟩
  · intro hn
    rw [TrimSuffix_of_not_suffix _ _ hn]
    refine ⟨rfl, ?_⟩
    rw [RuneCountInString_append, h3]
    show (s.data.take 497).length + 3 = 500
    rw [h497]
  · intro hy
    rw [TrimSuffix_of_suffix _ hy]
    have ht : (runeSlice s 497).data.take ((runeSlice s 497).data.length - 1) =
        s.data.take 496 := by
      show (s.data.take 497).take ((s.data.take 497).length - 1) = s.data.take 496
      rw [h497, List.take_take]
      rfl
    rw [ht]
    refine ⟨rfl, ?_⟩
    rw [RuneCountInString_append, h3, RuneCountInString_mk, List.length_take]
    omega

/-- The short description stored on the article. -/
theorem buildArticle_ShortDesc (env : Env) (w : World) (feed : Feed) (item : Item)
    (og : OpenGraph) (lang shortDesc : String) :
    (buildArticle env w feed item og lang shortDesc).ShortDesc =
      if RuneCountInString shortDesc ≥ 50 then some shortDesc else none := rfl

/-! ## C14: short-description truncation -/

/-- C14, as the code has it. Short-description truncation. When the stripped page description
has fewer than 20 runes and the stripped description has more than 500, the short description
is the first 497 runes of the stripped description, less one trailing period if there is one,
followed by "...": it has 500 runes when the 497th rune is not a period and 499 when it is
(the text before the ellipsis is then the first 496 runes, whatever their last rune). -/
theorem C14_short_description_truncation (env : Env) (og : OpenGraph) (description : String)
    (hog : RuneCountInString (env.StripHTMLTags og.Description) < minShortDesc)
    (hlen : RuneCountInString (env.StripHTMLTags description) > maxShortDesc) :
    deriveShortDesc env og description =
      TrimSuffix (runeSlice (env.StripHTMLTags description) 497) "." ++ "..." ∧
    (¬ ".".data.isSuffixOf (runeSlice (env.StripHTMLTags description) 497).data = true →
      deriveShortDesc env og description =
        runeSlice (env.StripHTMLTags description) 497 ++ "..." ∧
      RuneCountInString (deriveShortDesc env og description) = 500) ∧
    (".".data.isSuffixOf (runeSlice (env.StripHTMLTags description) 497).data = true →
      deriveShortDesc env og description =
        runeSlice (env.StripHTMLTags description) 496 ++ "..." ∧
      RuneCountInString (deriveShortDesc env og description) = 499) := by
  have hd : deriveShortDesc env og description =
      TrimSuffix (runeSlice (env.StripHTMLTags description) (maxShortDesc - 3)) "." ++ "..." := by
    unfold deriveShortDesc
    simp only [if_pos hog, if_pos hlen]
  obtain ⟨_, hno, hyes⟩ := truncated_shape (env.StripHTMLTags description) hlen
  have hm : maxShortDesc - 3 = 497 := by decide
  rw [hm] at hd hno hyes
  refine ⟨hd, ?_, ?_⟩
  · intro hn
    rw [hd]
    obtain ⟨h1, h2⟩ := hno hn
    exact ⟨by rw [h1], h2⟩
  · intro hy
    rw [hd]
    obtain ⟨h1, h2⟩ := hyes hy
    exact ⟨by rw [h1], h2⟩

set_option maxRecDepth 100000

/-- Witness for C14, the spec's case: a plain description of 600 runes and no page
description give a short description of 500 runes, the first 497 followed by "...". -/
theorem C14_short_description_truncation_witness :
    deriveShortDesc (pageEnv ⟨"", "", [], [], []⟩) ⟨"", "", [], [], []⟩ longText =
      runeSlice (tagStrip longText) 497 ++ "..." ∧
    RuneCountInString
      (deriveShortDesc (pageEnv ⟨"", "", [], [], []⟩) ⟨"", "", [], [], []⟩ longText) = 500 :=
  (C14_short_description_truncation (pageEnv ⟨"", "", [], [], []⟩) ⟨"", "", [], [], []⟩
    longText (by decide) (by decide)).2.1 (by decide)

/-- C14 fails as stated: the stripped description has 600 runes, the 496th and 497th of which
are periods; the short description has 499 runes, and the text before its final "..." ends in
a period. -/
theorem C14_counterexample :
    RuneCountInString (tagStrip dottedText) = 600 ∧
    deriveShortDesc (pageEnv ⟨"", "", [], [], []⟩) ⟨"", "", [], [], []⟩ dottedText =
      ⟨List.replicate 495 'a' ++ ['.'] ++ ['.', '.', '.']⟩ ∧
    RuneCountInString
      (deriveShortDesc (pageEnv ⟨"", "", [], [], []⟩) ⟨"", "", [], [], []⟩ dottedText) = 499 := by
  decide

/-! ## C19: short-description bound -/

/-- C19, as the code has it. Short-description bound. When the stripped page description has
at least 20 runes it is the short description, whatever its length; otherwise the short
description has at most 500 runes. The article handed to `Save` carries the short description
when it has at least 50 runes, and none otherwise. -/
theorem C19_short_description_bound (env : Env) (og : OpenGraph) (description : String) :
    (RuneCountInString (env.StripHTMLTags og.Description) ≥ minShortDesc →
      deriveShortDesc env og description = env.StripHTMLTags og.Description) ∧
    (RuneCountInString (env.StripHTMLTags og.Description) < minShortDesc →
      RuneCountInString (deriveShortDesc env og description) ≤ maxShortDesc) ∧
    (∀ w feed item a, openGraphFetch env w item.Link = .ok og →
      description = resolveDescription item og →
      (processItem env w feed item).saveCalls = w.saveCalls ++ [a] →
      a.ShortDesc = if RuneCountInString (deriveShortDesc env og description) ≥ 50 then
        some (deriveShortDesc env og description) else none) := by
  refine ⟨?_, ?_, ?_⟩
  · intro h
    unfold deriveShortDesc
    simp only [if_neg (not_lt.mpr h)]
  · intro h
    by_cases hlen : RuneCountInString (env.StripHTMLTags description) > maxShortDesc
    · have hd : deriveShortDesc env og description =
          TrimSuffix (runeSlice (env.StripHTMLTags description) (maxShortDesc - 3)) "." ++
            "..." := by
        unfold deriveShortDesc
        simp only [if_pos h, if_pos hlen]
      obtain ⟨_, hno, hyes⟩ := truncated_shape (env.StripHTMLTags description) hlen
      rw [hd]
      have hmax : maxShortDesc = 500 := rfl
      by_cases hsuf : ".".data.isSuffixOf
          (runeSlice (env.StripHTMLTags description) (maxShortDesc - 3)).data = true
      · rw [(hyes hsuf).2, hmax]
        omega
      · rw [(hno hsuf).2, hmax]
    · have hd : deriveShortDesc env og description = env.StripHTMLTags description := by
        unfold deriveShortDesc
        simp only [if_pos h, if_neg hlen]
      rw [hd]
      exact not_lt.mp hlen
  · intro w feed item a hog hdesc hsaved
    obtain ⟨og2, lang, hog2, _, ha⟩ := processItem_saved_inv env w feed item a hsaved
    have h2 := openGraphFetch_ok_unique env w item.Link og og2 hog hog2
    subst h2
    rw [ha, buildArticle_ShortDesc, hdesc]

/-- Witness for C19: without a page description, a plain description of 600 runes gives a
short description of at most 500 runes. -/
theorem C19_short_description_bound_witness :
    RuneCountInString
      (deriveShortDesc (pageEnv ⟨"", "", [], [], []⟩) ⟨"", "", [], [], []⟩ longText) ≤ 500 :=
  (C19_short_description_bound (pageEnv ⟨"", "", [], [], []⟩) ⟨"", "", [], [], []⟩
    longText).2.1 (by decide)

/-- C19 fails as stated: the page description is a plain text of 501 runes; it becomes the
short description untruncated and is stored on the article. -/
theorem C19_counterexample :
    RuneCountInString (deriveShortDesc (pageEnv ⟨"", overlongText, [], [], []⟩)
      ⟨"", overlongText, [], [], []⟩ "") = 501 ∧
    (processItem (pageEnv ⟨"", overlongText, [], [], []⟩) emptyWorld sampleFeed
      ⟨"T", "", "", "https://x/a", [], "", some 1, none, [], []⟩).articles.map
        (fun a => a.ShortDesc) = [some overlongText] := by
  decide

/-! ## C17: cancellation -/

theorem processItem_articles_grow (env : Env) (w : World) (feed : Feed) (item : Item) :
    w.articles <+: (processItem env w feed item).articles := by
  obtain ⟨_, ha1, _, _⟩ := parseOpengraphMeta_world env w item.Link
  rcases (processItem_cases env w feed item).2 with hskip | ⟨a, _, _, _, _, heq⟩
  · rw [hskip.2.1]
  · rw [heq]
    by_cases hok : env.Save (parseOpengraphMeta env w item.Link).1 a = none
    · rw [(saveArticle_ok env _ a hok).1, ha1]
      exact List.prefix_append _ _
    · rw [(saveArticle_fail env _ a hok).1, ha1]

theorem foldl_processItem_articles_grow (env : Env) (feed : Feed) :
    ∀ (items : List Item) (w : World),
      w.articles <+: (items.foldl (fun w0 item => processItem env w0 feed item) w).articles
  | [], w => List.prefix_refl _
  | item :: rest, w => by
    simp only [List.foldl_cons]
    exact (processItem_articles_grow env w feed item).trans
      (foldl_processItem_articles_grow env feed rest _)

theorem foldl_processItem_fetched (env : Env) (feed : Feed) :
    ∀ (items : List Item) (w : World),
      (items.foldl (fun w0 item => processItem env w0 feed item) w).fetched =
        w.fetched ++ items.map (fun item => item.Link)
  | [], w => by simp
  | item :: rest, w => by
    simp only [List.foldl_cons, List.map_cons]
    rw [foldl_processItem_fetched env feed rest, (processItem_cases env w feed item).1]
    simp

/-- A loop whose polls before the entries of `pre` find the context open and whose next poll
finds it closed processes `pre` and stops. -/
theorem processLoop_cancelled (env : Env) (feed : Feed) (rest : List Item) :
    ∀ (pre : List Item) (w : World),
      (∀ k, k < pre.length →
        env.ctxDone ((pre.take k).foldl (fun w0 item => processItem env w0 feed item) w) =
          false) →
      env.ctxDone (pre.foldl (fun w0 item => processItem env w0 feed item) w) = true →
      processLoop env feed (pre ++ rest) w =
        (pre.foldl (fun w0 item => processItem env w0 feed item) w, none)
  | [], w, _, hc => by
    cases rest with
    | nil => rfl
    | cons x r =>
      simp only [List.nil_append, List.foldl_nil] at hc ⊢
      rw [processLoop, if_pos hc]
  | x :: pre, w, hb, hc => by
    have h0 : env.ctxDone w = false := by
      have := hb 0 (by simp)
      simpa using this
    simp only [List.cons_append, List.foldl_cons] at hc ⊢
    rw [processLoop, if_neg (by simp [h0])]
    apply processLoop_cancelled env feed rest pre (processItem env w feed x) _ hc
    intro k hk
    have := hb (k + 1) (by simpa using hk)
    simpa using this

/-- C17. Cancellation. The loop polls the context before each entry (and nowhere else). In a
run that reaches the loop with new entries `pre ++ rest`, if the polls before the entries of
`pre` find the context open and the poll before the first entry of `rest` finds it closed,
then the run ends in the world left by processing the entries of `pre`, in order: only their
pages were requested, the store holds at the end everything it held after any of them (and
before the run), and `ProcessTask` returns `nil`. -/
theorem C17_cancellation (env : Env) (w w1 : World) (p : String) (id : UUID) (feed : Feed)
    (items pre rest : List Item) (lastIndex : Int)
    (hid : env.uuidParse p = some id) (hfeed : env.FindByID w id = .ok feed)
    (hparse : parseFeed env w feed.Link = (w1, items, none))
    (hcur : findLastIndex env w1 items = .ok lastIndex)
    (hnew : (trimItems items lastIndex).getD [] = pre ++ rest)
    (hopen : ∀ k, k < pre.length →
      env.ctxDone ((pre.take k).foldl (fun w0 item => processItem env w0 feed item) w1) = false)
    (hclosed :
      env.ctxDone (pre.foldl (fun w0 item => processItem env w0 feed item) w1) = true) :
    (∀ item others w0, processLoop env feed (item :: others) w0 =
      if env.ctxDone w0 then (w0, none)
      else processLoop env feed others (processItem env w0 feed item)) ∧
    ProcessTask env w (some p) =
      (pre.foldl (fun w0 item => processItem env w0 feed item) w1, none) ∧
    (ProcessTask env w (some p)).1.fetched = w.fetched ++ pre.map (fun item => item.Link) ∧
    (∀ k, ((pre.take k).foldl (fun w0 item => processItem env w0 feed item) w1).articles <+:
      (ProcessTask env w (some p)).1.articles) ∧
    w.articles <+: (ProcessTask env w (some p)).1.articles ∧
    (ProcessTask env w (some p)).2 = none := by
  obtain ⟨hwf, hwa, _, _⟩ := parseFeed_world env w feed.Link
  rw [hparse] at hwf hwa
  simp only at hwf hwa
  have heq : ProcessTask env w (some p) =
      (pre.foldl (fun w0 item => processItem env w0 feed item) w1, none) := by
    rw [ProcessTask_eq_processParsed env w w1 p id feed items hid hfeed hparse,
      processParsed_of_cursor env feed w1 items lastIndex hcur, hnew]
    exact processLoop_cancelled env feed rest pre w1 hopen hclosed
  refine ⟨fun item others w0 => rfl, heq, ?_, ?_, ?_, ?_⟩
  · rw [heq]
    simp only
    rw [foldl_processItem_fetched, hwf]
  · intro k
    rw [heq]
    simp only
    have hsplit : pre.foldl (fun w0 item => processItem env w0 feed item) w1 =
        (pre.drop k).foldl (fun w0 item => processItem env w0 feed item)
          ((pre.take k).foldl (fun w0 item => processItem env w0 feed item) w1) := by
      rw [← List.foldl_append, List.take_append_drop]
    rw [hsplit]
    exact foldl_processItem_articles_grow env feed _ _
  · rw [heq, ← hwa]
    exact foldl_processItem_articles_grow env feed pre w1
  · rw [heq]

/-- Witness for C17: of three new entries the first is processed and saved; the context is
found closed before the second; the article of the first stays in the store. -/
theorem C17_cancellation_witness :
    (ProcessTask (cancelEnv [some (sampleItem "https://x/a" 1),
      some (sampleItem "https://x/b" 2), some (sampleItem "https://x/c" 3)]) emptyWorld
      (some "7")).1.fetched = ["https://x/a"] ∧
    [sampleArticle 0 "https://x/a" 1] <+:
      (ProcessTask (cancelEnv [some (sampleItem "https://x/a" 1),
        some (sampleItem "https://x/b" 2), some (sampleItem "https://x/c" 3)]) emptyWorld
        (some "7")).1.articles ∧
    (ProcessTask (cancelEnv [some (sampleItem "https://x/a" 1),
      some (sampleItem "https://x/b" 2), some (sampleItem "https://x/c" 3)]) emptyWorld
      (some "7")).2 = none := by
  have h := C17_cancellation (cancelEnv [some (sampleItem "https://x/a" 1),
      some (sampleItem "https://x/b" 2), some (sampleItem "https://x/c" 3)]) emptyWorld
    (logAt emptyWorld .debug "feed link parsed") "7" 7 sampleFeed
    [sampleItem "https://x/a" 1, sampleItem "https://x/b" 2, sampleItem "https://x/c" 3]
    [sampleItem "https://x/a" 1]
    [sampleItem "https://x/b" 2, sampleItem "https://x/c" 3] (-1) rfl rfl (by decide) rfl rfl
    (by
      intro k hk
      have hk0 : k = 0 := by simpa using hk
      subst hk0
      decide)
    (by decide)
  exact ⟨h.2.2.1, h.2.2.2.1 1, h.2.2.2.2.2⟩

/-! ## C18: article listing page size -/

/-- The result of `List` does not depend on the `size` parameter of the request. -/
theorem ArticleActions_List_size_ignored (env : ListEnv) (query query2 : String → Option String)
    (hsame : ∀ key, key ≠ env.QuerySize → query2 key = query key)
    (h1 : env.QuerySize ≠ "host") (h2 : env.QuerySize ≠ "source_id")
    (h3 : env.QuerySize ≠ "lang") (h4 : env.QuerySize ≠ env.QueryIndex) :
    ArticleActions.List env query2 = ArticleActions.List env query := by
  unfold ArticleActions.List
  simp only [queryHas, queryGet, hsame "host" (Ne.symm h1), hsame "source_id" (Ne.symm h2),
    hsame "lang" (Ne.symm h3), hsame env.QueryIndex (Ne.symm h4)]

/-- The page size `List` reports is the one `SetSize(20)` leaves. -/
theorem ArticleActions_List_size (env : ListEnv) (query : String → Option String)
    (status : Nat) (response : ListResponse)
    (h : ArticleActions.List env query = .json status response) :
    response.Size = env.SetSize 20 := by
  unfold ArticleActions.List at h
  simp only at h
  split at h
  · simp at h
  · split at h
    · simp at h
    · rename_i total _
      by_cases ht : total > 0
      · rw [if_pos ht] at h
        split at h
        · simp at h
        · injection h with _ hr
          rw [← hr]
      · rw [if_neg ht] at h
        injection h with _ hr
        rw [← hr]

/-- C18 at a failing input. The request asks for `size=50` on a store of 3 articles, with
plain criteria setters: line 61 reads 50 from the request, but line 65 sets the page size to
20, which is the size applied to the query and reported in the response; the response is the
same as for a request without `size`. For every environment and request, the size in a
response is the one `SetSize(20)` leaves. -/
theorem C18_page_size_ignores_request :
    requestedSize (sampleListEnv 3) (fun k => if k = "size" then some "50" else none) = 50 ∧
    ArticleActions.List (sampleListEnv 3) (fun k => if k = "size" then some "50" else none) =
      .json 200 ⟨3, 0, 20, some []⟩ ∧
    ArticleActions.List (sampleListEnv 3) (fun k => if k = "size" then some "50" else none) =
      ArticleActions.List (sampleListEnv 3) (fun _ => none) ∧
    (∀ (env : ListEnv) (query : String → Option String),
      match ArticleActions.List env query with
      | .json _ response => response.Size = env.SetSize 20
      | .returned _ => True) := by
  refine ⟨by decide, by decide, by decide, ?_⟩
  intro env query
  cases h : ArticleActions.List env query with
  | returned err => trivial
  | json status response => exact ArticleActions_List_size env query status response h

end Rumors
